import Mathlib

/-! Verification of the Handy DevOps orchestration core.

A shallow embedding, in Lean 4, of the orchestration-and-recovery engine of
the Handy repository (`src-tauri/src/devops/`): the pipeline state tracker
(`pipeline.rs`), the tmux session recovery logic (`tmux.rs`), the Docker
resource-allocation and orphan-cleanup utilities (`docker.rs`), and the epic
orchestrator (`operations/orchestration.rs`, `operations/epic.rs`).

Rust strings are modelled as lists of characters (`Str`); Rust byte indices
coincide with character indices on the ASCII data the code manipulates.
External effects (GitHub, tmux, Docker, the filesystem, the clock and the
hostname) are modelled by explicit parameters or explicit state threading;
network and subprocess calls are modelled as succeeding, since every claim
under study is about the pure decision logic layered on top of them.
-/

/-- Rust `&str` / `String`, modelled as a list of characters. -/
abbrev Str := List Char

namespace Handy

/-! ## Character-level string operations mirroring Rust `str` methods -/

/-- The Unicode `White_Space` property, as used by Rust's `char::is_whitespace`
(the full set of 25 code points). -/
def isRustWhitespace (c : Char) : Bool :=
  c = ' ' ∨ c = '\t' ∨ c = '\n' ∨ c = '\x0b' ∨ c = '\x0c' ∨ c = '\r' ∨
  c.toNat = 0x85 ∨ c.toNat = 0xA0 ∨ c.toNat = 0x1680 ∨
  (0x2000 ≤ c.toNat ∧ c.toNat ≤ 0x200A) ∨
  c.toNat = 0x2028 ∨ c.toNat = 0x2029 ∨ c.toNat = 0x202F ∨
  c.toNat = 0x205F ∨ c.toNat = 0x3000

/-- Rust `str::trim`: strip whitespace from both ends. -/
def trimRust (s : Str) : Str :=
  ((s.dropWhile isRustWhitespace).reverse.dropWhile isRustWhitespace).reverse

/-- The stripping loop of `trim_start_matches`, with explicit fuel (each
strip of a nonempty pattern removes at least one character, so
`s.length` steps suffice; when the fuel runs out the remainder is empty
and is returned unchanged, as the loop itself would). -/
def trimStartMatchesGo (pat : Str) : Nat → Str → Str
  | 0, s => s
  | fuel + 1, s =>
    if pat ≠ [] ∧ pat <+: s then
      trimStartMatchesGo pat fuel (s.drop pat.length)
    else s

/-- Rust `str::trim_start_matches(pat)`: repeatedly strip a leading
occurrence of `pat`. -/
def trimStartMatches (pat : Str) (s : Str) : Str :=
  trimStartMatchesGo pat s.length s

/-- One step of `splitSub`: split `s` on the pattern `p :: ps`. `acc` holds
the (reversed) characters of the current segment; the fuel bounds the
length of `s` (both continuations shrink `s`, so `s.length` steps
suffice; the zero-fuel case is reached only at `s = []`). -/
def splitSubGo (p : Char) (ps : Str) : Nat → Str → Str → List Str
  | 0, s, acc => [acc.reverse ++ s]
  | fuel + 1, s, acc =>
    match s with
    | [] => [acc.reverse]
    | c :: rest =>
      if (p :: ps) <+: (c :: rest) then
        acc.reverse :: splitSubGo p ps fuel (rest.drop ps.length) []
      else
        splitSubGo p ps fuel rest (c :: acc)

/-- Rust `str::split(pat)` for a nonempty string pattern `pat`. -/
def splitSub (pat s : Str) : List Str :=
  match pat with
  | [] => [s]
  | p :: ps => splitSubGo p ps s.length s []

/-- Split on a single character (used to model line splitting). -/
def splitChar (sep : Char) : Str → List Str
  | [] => [[]]
  | c :: rest =>
    if c = sep then [] :: splitChar sep rest
    else
      match splitChar sep rest with
      | [] => [[c]]
      | l :: ls => (c :: l) :: ls

/-- Strip one trailing `'\r'`, as Rust `str::lines` does on each line. -/
def stripCR (l : Str) : Str :=
  if l.getLast? = some '\r' then l.dropLast else l

/-- Rust `str::lines`: split on `'\n'`, drop the trailing empty segment
produced by a terminating newline, strip one trailing `'\r'` per line. -/
def rustLines (s : Str) : List Str :=
  if s = [] then []
  else
    let parts := splitChar '\n' s
    let parts := if s.getLast? = some '\n' then parts.dropLast else parts
    parts.map stripCR

/-- Rust `str::split_once(c)`: the text before and after the first
occurrence of `c`. -/
def splitOnce (sep : Char) : Str → Option (Str × Str)
  | [] => none
  | c :: rest =>
    if c = sep then some ([], rest)
    else (splitOnce sep rest).map (fun p => (c :: p.1, p.2))

/-- Decimal digit value of a character, if it is one. -/
def digitVal? (c : Char) : Option Nat :=
  if '0' ≤ c ∧ c ≤ '9' then some (c.toNat - '0'.toNat) else none

/-- Accumulating decimal parse over a character list; `none` on the first
non-digit. -/
def parseNatAux : Str → Nat → Option Nat
  | [], acc => some acc
  | c :: rest, acc =>
    match digitVal? c with
    | some d => parseNatAux rest (acc * 10 + d)
    | none => none

/-- Rust `str::parse::<u32>()`: an optional leading `'+'`, then one or more
decimal digits, rejecting values that overflow `u32`. -/
def parseU32 (s : Str) : Option Nat :=
  let t := if s.head? = some '+' then s.tail else s
  if t = [] then none
  else
    match parseNatAux t 0 with
    | some v => if v < 2 ^ 32 then some v else none
    | none => none

/-- The decimal digits of `n`, most significant first, prepended to `acc`;
`fuel ≥ n` makes the zero-fuel branch unreachable (division by 10 shrinks
faster than the fuel). -/
def natDigitsAux : Nat → Nat → Str → Str
  | 0, n, acc => Nat.digitChar (n % 10) :: acc
  | fuel + 1, n, acc =>
    if n < 10 then Nat.digitChar n :: acc
    else natDigitsAux fuel (n / 10) (Nat.digitChar (n % 10) :: acc)

/-- Rust `format!("{}", n)` for an unsigned integer: decimal digits. -/
def natStr (n : Nat) : Str := natDigitsAux n n []

/-- The index of the last occurrence of `c` in `l`, mirroring Rust
`str::rfind(char)` (byte index = character index on ASCII data). -/
def lastIndexOf (c : Char) : Str → Option Nat
  | [] => none
  | x :: xs =>
    match lastIndexOf c xs with
    | some i => some (i + 1)
    | none => if x = c then some 0 else none

/-- The ten decimal digit characters. -/
def decDigits : Str := ['0', '1', '2', '3', '4', '5', '6', '7', '8', '9']

/-! ## Docker resource allocation (`docker.rs`)

Constants from `docker.rs`: `PORT_RANGE_BASE = 30000`, `PORT_RANGE_SIZE = 100`,
container prefix `handy-sandbox-`. `u16` arithmetic is modelled with an
explicit `% 2 ^ 16`. -/

/-- `docker.rs::allocate_port_range`: `slot = issue_number % 100` (cast to
`u16`), `base = PORT_RANGE_BASE + slot * PORT_RANGE_SIZE`,
`end = base + PORT_RANGE_SIZE - 1`, all in `u16` arithmetic. -/
def allocate_port_range (issue_number : Nat) : Nat × Nat :=
  let slot := issue_number % 100
  let base := (30000 + slot * 100) % 2 ^ 16
  let e := (base + 100 - 1) % 2 ^ 16
  (base, e)

/-- `docker.rs::remap_port_to_range`: `base + container_port % PORT_RANGE_SIZE`
in `u16` arithmetic. -/
def remap_port_to_range (container_port : Nat) (issue_number : Nat) : Nat :=
  let base := (allocate_port_range issue_number).1
  (base + container_port % 100) % 2 ^ 16

/-! ## tmux session model (`tmux.rs`)

The tmux server, the filesystem, the hostname and the clock are external;
they enter the model as explicit parameters: the raw
`tmux show-environment` output of a session, a `pathExists` predicate, the
`hostname` string and a `now` timestamp string. -/

/-- `tmux.rs::SessionStatus`. -/
inductive SessionStatus where
  | Running
  | Stopped
  | Recovered
deriving DecidableEq, Repr

/-- `tmux.rs::AgentMetadata`. -/
structure AgentMetadata where
  session : Str
  issue_ref : Option Str
  repo : Option Str
  worktree : Option Str
  agent_type : Str
  machine_id : Str
  started_at : Str
deriving DecidableEq, Repr

/-- `tmux.rs::TmuxSession`. `status` is `Running` exactly when
`check_session_has_active_process` reported a non-shell foreground command
(an external observation, part of the input). -/
structure TmuxSession where
  name : Str
  attached : Bool
  windows : Nat
  created : Nat
  metadata : Option AgentMetadata
  status : SessionStatus
deriving DecidableEq, Repr

/-- `tmux.rs::RecoverySource`. -/
inductive RecoverySource where
  | Tmux
  | GitHubIssue
  | Both
deriving DecidableEq, Repr

/-- `tmux.rs::RecoveryAction`. -/
inductive RecoveryAction where
  | Resume
  | Restart
  | Cleanup
  | NoAction
deriving DecidableEq, Repr

/-- `tmux.rs::RecoveredSession`. -/
structure RecoveredSession where
  metadata : AgentMetadata
  source : RecoverySource
  tmux_alive : Bool
  worktree_exists : Bool
  recommended_action : RecoveryAction
deriving DecidableEq, Repr

/-- The environment-variable keys of `tmux.rs`. -/
def ENV_ISSUE_REF : Str := ("HANDY_ISSUE_REF").data

def ENV_REPO : Str := ("HANDY_REPO").data

def ENV_WORKTREE : Str := ("HANDY_WORKTREE").data

def ENV_AGENT_TYPE : Str := ("HANDY_AGENT_TYPE").data

def ENV_MACHINE_ID : Str := ("HANDY_MACHINE_ID").data

def ENV_STARTED_AT : Str := ("HANDY_STARTED_AT").data

/-- The `HANDY_`-prefixed environment pairs parsed from the raw
`tmux show-environment` output, as in `get_session_metadata`: each line is
split once on `'='` and kept when its key starts with `HANDY_`. -/
def handyEnvPairs (stdout : Str) : List (Str × Str) :=
  (rustLines stdout).filterMap fun line =>
    (splitOnce '=' line).bind fun p =>
      if ("HANDY_").data <+: p.1 then some p else none

/-- A key's value in the environment `HashMap` (last insertion wins). -/
def envValue (stdout : Str) (key : Str) : Option Str :=
  ((handyEnvPairs stdout).reverse.find? fun p => p.1 = key).map (·.2)

/-- `tmux.rs::get_session_metadata`, given the raw `show-environment`
output. `hostname` models `get_machine_id()` (the current machine) and
`now` models `chrono::Utc::now()`; both are the defaults substituted for
missing fields. -/
def get_session_metadata (session_name : Str) (stdout : Str)
    (hostname : Str) (now : Str) : AgentMetadata :=
  { session := session_name
  , issue_ref := envValue stdout ENV_ISSUE_REF
  , repo := envValue stdout ENV_REPO
  , worktree := envValue stdout ENV_WORKTREE
  , agent_type := (envValue stdout ENV_AGENT_TYPE).getD (("unknown").data)
  , machine_id := (envValue stdout ENV_MACHINE_ID).getD hostname
  , started_at := (envValue stdout ENV_STARTED_AT).getD now }

/-- The classification `match (tmux_alive, worktree_exists)` of
`recover_sessions`. -/
def recoveryClassify (tmux_alive worktree_exists : Bool) : RecoveryAction :=
  match tmux_alive, worktree_exists with
  | true, _ => RecoveryAction.Resume
  | false, true => RecoveryAction.Restart
  | false, false => RecoveryAction.Cleanup

/-- `tmux.rs::recover_sessions`, over an already-listed session set.
`hostname` models `get_machine_id()` and `pathExists` the filesystem
check `std::path::Path::new(p).exists()`. -/
def recover_sessions (hostname : Str) (pathExists : Str → Bool)
    (sessions : List TmuxSession) : List RecoveredSession :=
  sessions.foldl
    (fun acc session =>
      match session.metadata with
      | none => acc
      | some metadata =>
        if metadata.machine_id ≠ hostname then acc
        else
          let worktree_exists :=
            (metadata.worktree.map pathExists).getD false
          let tmux_alive := session.status = SessionStatus.Running
          acc ++ [{ metadata := metadata
                  , source := RecoverySource.Tmux
                  , tmux_alive := tmux_alive
                  , worktree_exists := worktree_exists
                  , recommended_action :=
                      recoveryClassify tmux_alive worktree_exists }])
    []

/-- A concrete metadata record used by the C6/C3 witnesses: the stored
machine id matches the current hostname `mach0`, the worktree is absent. -/
def sampleMetadata : AgentMetadata :=
  { session := ("handy-agent-7").data
  , issue_ref := some (("o/r#7").data)
  , repo := some (("o/r").data)
  , worktree := none
  , agent_type := ("claude").data
  , machine_id := ("mach0").data
  , started_at := ("t0").data }

/-! ## Orphan container cleanup (`docker.rs::cleanup_orphaned_containers`) -/

/-- The issue number embedded in a sandbox container name:
`name.trim_start_matches("handy-support-sandbox-")
     .trim_start_matches("handy-sandbox-").parse::<u32>().ok()`. -/
def containerIssueNum (name : Str) : Option Nat :=
  parseU32 (trimStartMatches (("handy-sandbox-").data)
    (trimStartMatches (("handy-support-sandbox-").data) name))

/-- The issue numbers that have an active session, from
`cleanup_orphaned_containers`: each session metadata's `issue_ref`, split on
`'#'`, last segment, parsed as `u32`. -/
def activeIssueNumbers (sessions : List TmuxSession) : List Nat :=
  sessions.filterMap fun s =>
    s.metadata.bind fun m =>
      m.issue_ref.bind fun r =>
        ((splitSub (['#']) r).getLast?).bind parseU32

/-- The orphan test of `cleanup_orphaned_containers`: a container whose
embedded issue number has no active session, or whose name does not parse,
is an orphan. -/
def isOrphanContainer (activeNums : List Nat) (name : Str) : Bool :=
  match containerIssueNum name with
  | some num => ! activeNums.contains num
  | none => true

/-- `docker.rs::cleanup_orphaned_containers`, restricted to its pure
decision core: from the `docker ps` name list and the session list, the
names that are classified as orphaned and passed to `docker rm -f`
(removals are modelled as succeeding). -/
def cleanup_orphaned_containers (container_names : List Str)
    (sessions : List TmuxSession) : List Str :=
  container_names.filter (isOrphanContainer (activeIssueNumbers sessions))

/-! ## Pipeline state tracker (`pipeline.rs`)

The clock is modelled by explicit `now`/timestamp string parameters
standing for `chrono::Utc::now()`. The `HashMap<String, PipelineItem>` of
`PipelineState` is modelled as an association list keyed by item id; the
arbitrary iteration order of the map is whatever order the list carries. -/

/-- `github.rs::GitHubIssue` (the fields the devops core reads). -/
structure GHIssue where
  number : Nat
  title : Str
  body : Option Str
  state : Str
  url : Str
  labels : List Str
deriving DecidableEq, Repr

/-- `github.rs::GitHubPullRequest` (the fields the pipeline reads). -/
structure GHPullRequest where
  number : Nat
  url : Str
  state : Str
  is_draft : Bool
  head_branch : Str
deriving DecidableEq, Repr

/-- `orchestrator.rs::AgentStatus` (the fields `aggregate_pipeline_state`
reads). -/
structure AgentStatus where
  session : Str
  issue_number : Option Nat
  repo : Option Str
  worktree : Option Str
  machine_id : Str
deriving DecidableEq, Repr

/-- `pipeline.rs::PrPipelineStatus`. -/
inductive PrPipelineStatus where
  | NoPr
  | Draft
  | Ready
  | NeedsReview
  | Approved
  | Merged
  | Closed
deriving DecidableEq, Repr

/-- `pipeline.rs::PipelineStatus`. -/
inductive PipelineStatus where
  | Queued
  | InProgress
  | PrPending
  | PrReview
  | Completed
  | Skipped
  | Failed
deriving DecidableEq, Repr

/-- `pipeline.rs::PipelineItem`. -/
structure PipelineItem where
  id : Str
  tracking_repo : Str
  work_repo : Str
  issue_number : Nat
  issue_title : Str
  issue_url : Str
  agent_type : Str
  session_name : Option Str
  worktree_path : Option Str
  branch_name : Option Str
  machine_id : Option Str
  pr_number : Option Nat
  pr_url : Option Str
  pr_status : PrPipelineStatus
  status : PipelineStatus
  created_at : Str
  started_at : Option Str
  completed_at : Option Str
  error : Option Str
deriving DecidableEq, Repr

namespace PipelineItem

/-- `PipelineItem::from_issue`. `tsNow` models the
`chrono::Utc::now().timestamp()` suffix of the id and `now` the
`to_rfc3339()` creation time. -/
def from_issue (issue : GHIssue) (tracking_repo work_repo agent_type : Str)
    (tsNow now : Str) : PipelineItem :=
  { id := (work_repo.map fun c => if c = '/' then '-' else c) ++ ('-') ::
      (natStr issue.number ++ ('-') :: tsNow)
  , tracking_repo := tracking_repo
  , work_repo := work_repo
  , issue_number := issue.number
  , issue_title := issue.title
  , issue_url := issue.url
  , agent_type := agent_type
  , session_name := none
  , worktree_path := none
  , branch_name := none
  , machine_id := none
  , pr_number := none
  , pr_url := none
  , pr_status := PrPipelineStatus.NoPr
  , status := PipelineStatus.Queued
  , created_at := now
  , started_at := none
  , completed_at := none
  , error := none }

/-- `PipelineItem::start_work`. -/
def start_work (item : PipelineItem)
    (session_name worktree_path branch_name machine_id now : Str) :
    PipelineItem :=
  { item with
    session_name := some session_name
  , worktree_path := some worktree_path
  , branch_name := some branch_name
  , machine_id := some machine_id
  , status := PipelineStatus.InProgress
  , started_at := some now }

/-- `PipelineItem::link_pr`. -/
def link_pr (item : PipelineItem) (pr : GHPullRequest) : PipelineItem :=
  let prs :=
    if pr.state = ("merged").data then PrPipelineStatus.Merged
    else if pr.state = ("closed").data then PrPipelineStatus.Closed
    else if pr.is_draft then PrPipelineStatus.Draft
    else PrPipelineStatus.Ready
  { item with
    pr_number := some pr.number
  , pr_url := some pr.url
  , pr_status := prs
  , status :=
      if prs = PrPipelineStatus.Merged then PipelineStatus.Completed
      else PipelineStatus.PrReview }

/-- `PipelineItem::update_pr_status`. -/
def update_pr_status (item : PipelineItem) (pr : GHPullRequest)
    (has_reviewers is_approved : Bool) (now : Str) : PipelineItem :=
  let prs :=
    if pr.state = ("merged").data ∨ pr.state = ("MERGED").data then
      PrPipelineStatus.Merged
    else if pr.state = ("closed").data ∨ pr.state = ("CLOSED").data then
      PrPipelineStatus.Closed
    else if is_approved then PrPipelineStatus.Approved
    else if has_reviewers then PrPipelineStatus.NeedsReview
    else if pr.is_draft then PrPipelineStatus.Draft
    else PrPipelineStatus.Ready
  let item := { item with pr_status := prs }
  match prs with
  | PrPipelineStatus.Merged =>
    { item with completed_at := some now, status := PipelineStatus.Completed }
  | PrPipelineStatus.Closed =>
    { item with completed_at := some now, status := PipelineStatus.Failed }
  | _ => { item with status := PipelineStatus.PrReview }

/-- `PipelineItem::skip`. -/
def skip (item : PipelineItem) (now : Str) : PipelineItem :=
  { item with status := PipelineStatus.Skipped, completed_at := some now }

/-- `PipelineItem::fail`. -/
def fail (item : PipelineItem) (error : Str) (now : Str) : PipelineItem :=
  { item with
    status := PipelineStatus.Failed
  , error := some error
  , completed_at := some now }

/-- `PipelineItem::is_active`. -/
def is_active (item : PipelineItem) : Bool :=
  item.status = PipelineStatus.InProgress ∨
  item.status = PipelineStatus.PrPending ∨
  item.status = PipelineStatus.PrReview

/-- `PipelineItem::is_complete`. -/
def is_complete (item : PipelineItem) : Bool :=
  item.status = PipelineStatus.Completed ∨
  item.status = PipelineStatus.Skipped ∨
  item.status = PipelineStatus.Failed

end PipelineItem

/-- `pipeline.rs::PipelineState`: the `HashMap` of active items as an
association list keyed by item id, plus history. -/
structure PipelineState where
  items : List (Str × PipelineItem)
  history : List PipelineItem
  max_history : Nat
deriving DecidableEq, Repr

/-- The history trimming loop of `archive_item`:
`while history.len() > max_history { history.remove(0); }`. -/
def trimFront (l : List PipelineItem) (m : Nat) : List PipelineItem :=
  if l.length ≤ m then l
  else
    match l with
    | [] => []
    | _ :: rest => trimFront rest m

namespace PipelineState

/-- `PipelineState::archive_item`: remove the item from the active map
unconditionally; push it to (trimmed) history only when it is complete. -/
def archive_item (st : PipelineState) (id : Str) :
    Option PipelineItem × PipelineState :=
  match st.items.find? (fun p => p.1 = id) with
  | none => (none, st)
  | some entry =>
    let items := st.items.filter (fun p => ¬ p.1 = id)
    if entry.2.is_complete then
      (some entry.2,
       { st with
         items := items
       , history := trimFront (st.history ++ [entry.2]) st.max_history })
    else
      (some entry.2, { st with items := items })

end PipelineState

/-- `values_mut().find(..)` followed by an in-place update: apply `f` to
the first element satisfying `p`. -/
def updateFirstMatch (p : PipelineItem → Bool)
    (f : PipelineItem → PipelineItem) : List PipelineItem → List PipelineItem
  | [] => []
  | item :: rest =>
    if p item then f item :: rest
    else item :: updateFirstMatch p f rest

/-- The session-field refresh of `aggregate_pipeline_state`: update the
session fields and promote a non-terminal item to `InProgress`. -/
def aggUpdate (session : AgentStatus) (item : PipelineItem) : PipelineItem :=
  let item := { item with
    session_name := some session.session
  , worktree_path := session.worktree
  , machine_id := some session.machine_id }
  if item.is_complete then item
  else { item with status := PipelineStatus.InProgress }

/-- The per-session update step of `aggregate_pipeline_state`: find the
first item matching the session's issue/repo and refresh it. -/
def aggStep (work_repo : Str) (items : List PipelineItem)
    (session : AgentStatus) : List PipelineItem :=
  match session.issue_number with
  | none => items
  | some issue_number =>
    let repo := session.repo.getD work_repo
    updateFirstMatch
      (fun item => item.issue_number = issue_number ∧
        (item.tracking_repo = repo ∨ item.work_repo = repo))
      (aggUpdate session) items

/-- `pipeline.rs::aggregate_pipeline_state`, over the map's value list. -/
def aggregate_pipeline_state (st : PipelineState)
    (sessions : List AgentStatus) (work_repo : Str) : List PipelineItem :=
  sessions.foldl (aggStep work_repo) (st.items.map (·.2))

/-! ## C4: `skip`/`fail` and terminal states -/

/-- A pipeline item that has already completed (status `Completed` with a
merged PR), used as the counterexample input. -/
def completedItem : PipelineItem :=
  { id := ("test-repo-123-0").data
  , tracking_repo := ("test/tracking").data
  , work_repo := ("test/repo").data
  , issue_number := 123
  , issue_title := ("Test Issue").data
  , issue_url := ("https://github.com/test/repo/issues/123").data
  , agent_type := ("claude").data
  , session_name := none
  , worktree_path := none
  , branch_name := none
  , machine_id := none
  , pr_number := some 5
  , pr_url := some (("pu").data)
  , pr_status := PrPipelineStatus.Merged
  , status := PipelineStatus.Completed
  , created_at := ("t0").data
  , started_at := none
  , completed_at := some (("t1").data)
  , error := none }

/-- Concrete inputs for the C5 witness. -/
def mergedPr : GHPullRequest :=
  { number := 5
  , url := ("pu").data
  , state := ("merged").data
  , is_draft := false
  , head_branch := ("issue-123").data }

def completedState : PipelineState :=
  { items := [(completedItem.id, completedItem)]
  , history := []
  , max_history := 100 }

/-! ## Epic orchestration (`operations/orchestration.rs`, `operations/epic.rs`)

GitHub is modelled as an explicit issue store (`GHState`) threaded through
the operations; `list_all_issues_async` returns the store's issue list and
`create_issue_async` appends a fresh-numbered issue. Labels added right
after creation (`"todo"`) are modelled as part of creation; comments and
agent spawning perform no issue mutation and are omitted. -/

/-- The phase marker searched for in sub-issue bodies: `**Phase**:`. -/
def patPhaseMarker : Str := ("**Phase**:").data

/-- The epic marker searched for in sub-issue bodies: `Epic**: #{n}`. -/
def epicRefMarker (epic_number : Nat) : Str :=
  ("Epic**: #").data ++ natStr epic_number

/-- `orchestration.rs::truncate_title` (`MAX_TITLE_LENGTH = 100`): trim,
return unchanged when within the limit, otherwise cut at the last space
before index 97 (or at 97 when there is none) and append `...`. Rust byte
indices are character indices here. -/
def truncate_title (title : Str) : Str :=
  let t := trimRust title
  if t.length ≤ 100 then t
  else
    let cut := (lastIndexOf ' ' (t.take (100 - 3))).getD (100 - 3)
    t.take cut ++ ("...").data

/-- `operations/epic.rs::PhaseConfig`. -/
structure PhaseConfig where
  name : Str
  description : Str
  approach : Str
  tasks : List Str
  files : List Str
  dependencies : List Str
deriving DecidableEq, Repr

/-- `operations/epic.rs::EpicInfo`. -/
structure EpicInfo where
  epic_number : Nat
  repo : Str
  work_repo : Str
  title : Str
  url : Str
  phases : List PhaseConfig
deriving DecidableEq, Repr

/-- `operations/epic.rs::SubIssueConfig`. -/
structure SubIssueConfig where
  title : Str
  phase : Nat
  estimated_time : Str
  dependencies : Str
  goal : Str
  tasks : Str
  acceptance_criteria : List Str
  agent_type : Str
  work_repo : Option Str
deriving DecidableEq, Repr

/-- `operations/epic.rs::SubIssueInfo`. -/
structure SubIssueInfo where
  issue_number : Nat
  title : Str
  phase : Nat
  agent_type : Str
  work_repo : Str
  url : Str
deriving DecidableEq, Repr

/-- `orchestration.rs::StartOrchestrationConfig`. -/
structure StartOrchestrationConfig where
  phases : List Nat
  auto_spawn_agents : Bool
  default_agent_type : Str
  worktree_base : Str
deriving DecidableEq, Repr

/-- `orchestration.rs::OrchestrationResult`. Agent spawning shells out to
tmux/git and never mutates GitHub issues; the `spawned_agents` list is
omitted from the model. -/
structure OrchestrationResult where
  epic_number : Nat
  sub_issues : List SubIssueInfo
  started_phases : List Nat
  warnings : List Str
deriving DecidableEq, Repr

/-- The modelled GitHub issue store: the issues visible to
`list_all_issues_async`, plus the next issue number the tracker will
allocate. -/
structure GHState where
  issues : List GHIssue
  nextNumber : Nat
deriving DecidableEq, Repr

/-- The issue URL `https://github.com/{repo}/issues/{n}`. -/
def issueUrl (repo : Str) (n : Nat) : Str :=
  ("https://github.com/").data ++ repo ++ ("/issues/").data ++ natStr n

/-- `github::create_issue_async` followed by the `"todo"` label add of
`create_sub_issues`: append a fresh open issue. -/
def createIssue (st : GHState) (repo title body : Str) : Nat × GHState :=
  (st.nextNumber,
   { issues := st.issues ++
       [{ number := st.nextNumber
        , title := title
        , body := some body
        , state := ("open").data
        , url := issueUrl repo st.nextNumber
        , labels := [("todo").data] }]
   , nextNumber := st.nextNumber + 1 })

/-- `Vec::join(sep)` / `Iterator::join`. -/
def joinSep (sep : Str) : List Str → Str
  | [] => []
  | [x] => x
  | x :: rest => x ++ sep ++ joinSep sep rest

/-- The double-quote character (used by the Rust `Debug` formatting of a
string vector). -/
def quoteChar : Char := Char.ofNat 34

/-- Rust `Debug` escaping of a string (the escapes relevant to this data:
quote, backslash, newline, carriage return, tab). -/
def rustDebugEscape (s : Str) : Str :=
  s.flatMap fun c =>
    if c = quoteChar then ['\\', quoteChar]
    else if c = '\\' then ['\\', '\\']
    else if c = '\n' then ['\\', 'n']
    else if c = '\r' then ['\\', 'r']
    else if c = '\t' then ['\\', 't']
    else [c]

/-- Rust `format!("{:?}", vec_of_strings)`. -/
def rustDebugStrList (l : List Str) : Str :=
  ('[') :: joinSep ((", ").data)
    (l.map fun s => quoteChar :: (rustDebugEscape s ++ [quoteChar])) ++ [']']

/-- The warning `format!("Phase {} does not exist (epic has {} phases)", ..)`. -/
def warnNoPhase (p num_phases : Nat) : Str :=
  ("Phase ").data ++ natStr p ++ (" does not exist (epic has ").data ++
    natStr num_phases ++ (" phases)").data

/-- The warning `format!("Phase {} already has issue #{} - skipping creation", ..)`. -/
def warnExists (p issue_number : Nat) : Str :=
  ("Phase ").data ++ natStr p ++ (" already has issue #").data ++
    natStr issue_number ++ (" - skipping creation").data

/-- The warning `format!("Phase {} has dependencies: {:?}. Proceeding anyway.", ..)`. -/
def warnDeps (p : Nat) (deps : List Str) : Str :=
  ("Phase ").data ++ natStr p ++ (" has dependencies: ").data ++
    rustDebugStrList deps ++ (". Proceeding anyway.").data

/-- The phase-number extraction of `start_orchestration`: the first body
line containing `**Phase**:`, split on that marker, second segment,
trimmed, parsed as `u32`. -/
def extractPhaseFromBody (body : Str) : Option Nat :=
  ((rustLines body).find? fun line =>
    decide (patPhaseMarker <:+: line)).bind fun line =>
    ((splitSub patPhaseMarker line).get? 1).bind fun seg =>
      parseU32 (trimRust seg)

/-- The epic-reference filter of `start_orchestration`:
`body.contains("Epic**: #{n}")`. -/
def refsEpic (epic_number : Nat) (issue : GHIssue) : Bool :=
  match issue.body with
  | some b => decide (epicRefMarker epic_number <:+: b)
  | none => false

/-- The `(phase, issue)` pairs collected into `existing_phase_issues`. -/
def phaseEntries (issues : List GHIssue) (epic_number : Nat) :
    List (Nat × GHIssue) :=
  (issues.filter (refsEpic epic_number)).filterMap fun issue =>
    (issue.body.bind extractPhaseFromBody).map fun phase => (phase, issue)

/-- `existing_phase_issues.get(&p)`: the `HashMap` collected from the
entries, where a later entry for the same phase overrides an earlier one. -/
def lookupPhaseIssue (issues : List GHIssue) (epic_number p : Nat) :
    Option GHIssue :=
  ((phaseEntries issues epic_number).reverse.find? fun e => e.1 = p).map (·.2)

/-- `orchestration.rs::estimate_phase_time`. -/
def estimate_phase_time (phase : PhaseConfig) : Str :=
  if phase.tasks.length = 0 then ("2-4 hours").data
  else if phase.tasks.length ≤ 3 then ("4-8 hours").data
  else if phase.tasks.length ≤ 6 then ("1-2 days").data
  else ("2-3 days").data

/-- The tasks text assembled by `create_phase_issue`. -/
def phaseTasksText (phase : PhaseConfig) : Str :=
  if phase.tasks = [] then phase.description
  else
    let task_list := joinSep (['\n'])
      (phase.tasks.map fun t => ("- ").data ++ t)
    if phase.files = [] then task_list
    else
      task_list ++ ("\n\n**Relevant files**:\n").data ++
        joinSep (['\n']) (phase.files.map fun f => ("- `").data ++ f ++ [('`')])

/-- `orchestration.rs::create_phase_issue`. -/
def create_phase_issue (phase_num : Nat) (phase : PhaseConfig)
    (work_repo default_agent_type : Str) : SubIssueConfig :=
  { title := truncate_title (("Phase ").data ++ natStr phase_num ++
      (": ").data ++ phase.name)
  , phase := phase_num
  , estimated_time := estimate_phase_time phase
  , dependencies :=
      if phase.dependencies = [] then ("None").data
      else joinSep ((", ").data) phase.dependencies
  , goal := phase.description
  , tasks := phaseTasksText phase
  , acceptance_criteria :=
      (if phase.tasks = [] then []
       else [natStr phase.tasks.length ++ (" tasks completed").data]) ++
      [("All tasks completed").data, ("Tests pass").data,
       ("Code reviewed").data]
  , agent_type :=
      if phase.approach = ("agent-assisted").data then default_agent_type
      else if phase.approach = ("automated").data then ("automated").data
      else ("manual").data
  , work_repo := some work_repo }

/-- The part of the sub-issue body template before the `**Phase**:` line's
newline: `# {title}\n\n**Epic**: #{n}` (the trailing `**` of the `**Epic**`
marker is split so the `Epic**: #{n}` search string appears whole). -/
def bodyPre (epic_number : Nat) (title : Str) : Str :=
  ("# ").data ++ title ++ ('\n') :: ('\n') :: (("**").data ++
    epicRefMarker epic_number)

/-- The `**Phase**: {p}` line of the sub-issue body template. -/
def bodyPhaseLine (phase : Nat) : Str :=
  patPhaseMarker ++ (' ') :: natStr phase

/-- The part of the sub-issue body template after the `**Phase**:` line,
ending with the template's final newline. -/
def bodyPost (epic_repo work_repo : Str) (config : SubIssueConfig) : Str :=
  let criteria := joinSep (['\n'])
    (config.acceptance_criteria.map fun c => ("- [ ] ").data ++ c)
  let work_repo_line :=
    if ¬ work_repo = epic_repo then
      ("**Work Repository**: ").data ++ work_repo ++ ['\n']
    else []
  ("**Estimated Time**: ").data ++ config.estimated_time ++
    ("\n**Dependencies**: ").data ++ config.dependencies ++ ['\n'] ++
    work_repo_line ++ ("\n## Goal\n").data ++ config.goal ++
    ("\n\n## Tasks\n").data ++ config.tasks ++
    ("\n\n## Acceptance Criteria\n").data ++ criteria ++
    ("\n- [ ] Code follows style guide (cargo fmt, clippy, eslint)\n- [ ] Tests passing locally\n- [ ] PR created referencing this issue\n\n## Agent Assignment\n**Agent Type**: ").data ++
    config.agent_type ++
    ("\n**Session**: handy-agent-TBD\n**Worktree**: handy-worktrees/issue-TBD\n**Started**: [Will be filled when agent spawns]").data ++
    ['\n']

/-- `operations/epic.rs::format_sub_issue_body`: the sub-issue body
template (`# {title}\n\n**Epic**: #{n}\n**Phase**: {p}\n...`), transcribed
field for field and assembled from the three segments around the
`**Phase**:` line. -/
def format_sub_issue_body (epic_number : Nat) (epic_repo work_repo : Str)
    (config : SubIssueConfig) : Str :=
  bodyPre epic_number config.title ++ ('\n') ::
    (bodyPhaseLine config.phase ++ ('\n') ::
      bodyPost epic_repo work_repo config)

/-- The per-config step of `create_sub_issues`: create the GitHub issue
with the templated body and record its `SubIssueInfo`. -/
def csiStep (epic_number : Nat) (epic_repo epic_work_repo : Str)
    (acc : List SubIssueInfo × GHState) (config : SubIssueConfig) :
    List SubIssueInfo × GHState :=
  let work_repo := config.work_repo.getD epic_work_repo
  let body := format_sub_issue_body epic_number epic_repo work_repo config
  let created := createIssue acc.2 epic_repo config.title body
  (acc.1 ++ [{ issue_number := created.1
             , title := config.title
             , phase := config.phase
             , agent_type := config.agent_type
             , work_repo := work_repo
             , url := issueUrl epic_repo created.1 }],
   created.2)

/-- `operations/epic.rs::create_sub_issues`: create one GitHub issue per
config (with the templated body), collecting `SubIssueInfo`s. -/
def create_sub_issues (epic_number : Nat) (epic_repo epic_work_repo : Str)
    (configs : List SubIssueConfig) (st : GHState) :
    List SubIssueInfo × GHState :=
  configs.foldl (csiStep epic_number epic_repo epic_work_repo) ([], st)

/-- The per-phase loop body of `start_orchestration`, accumulating
warnings, started phases, reused-issue infos and configs to create. -/
structure OrchAcc where
  warnings : List Str
  started : List Nat
  infos : List SubIssueInfo
  configs : List SubIssueConfig
deriving DecidableEq, Repr

/-- One iteration of the `for phase_num in &phases_to_start` loop of
`start_orchestration`. `p - 1` is the saturating `phase_idx`. -/
def processPhase (epic : EpicInfo) (default_agent_type : Str)
    (existingIssues : List GHIssue) (acc : OrchAcc) (p : Nat) : OrchAcc :=
  if h : p - 1 < epic.phases.length then
    match lookupPhaseIssue existingIssues epic.epic_number p with
    | some existing =>
      { acc with
        warnings := acc.warnings ++ [warnExists p existing.number]
      , started := acc.started ++ [p]
      , infos := acc.infos ++
          [{ issue_number := existing.number
           , title := existing.title
           , phase := p
           , agent_type := default_agent_type
           , work_repo := epic.work_repo
           , url := existing.url }] }
    | none =>
      let phase := epic.phases.get ⟨p - 1, h⟩
      { acc with
        warnings := acc.warnings ++
          (if phase.dependencies = [] then [] else [warnDeps p phase.dependencies])
      , configs := acc.configs ++
          [create_phase_issue p phase epic.work_repo default_agent_type]
      , started := acc.started ++ [p] }
  else
    { acc with warnings := acc.warnings ++ [warnNoPhase p epic.phases.length] }

/-- The phase list actually processed (`vec![1]` when none requested). -/
def phasesToStart (config : StartOrchestrationConfig) : List Nat :=
  if config.phases = [] then [1] else config.phases

/-- The accumulator produced by the phase loop of `start_orchestration`. -/
def orchAccOf (epic : EpicInfo) (config : StartOrchestrationConfig)
    (st : GHState) : OrchAcc :=
  (phasesToStart config).foldl
    (processPhase epic config.default_agent_type st.issues)
    { warnings := [], started := [], infos := [], configs := [] }

/-- `orchestration.rs::start_orchestration`, up to its GitHub-issue
effects: scan for existing sub-issues, skip/reuse or create per phase.
When some configs are created, `result.sub_issues` is overwritten with the
created list (as in the source); agent spawning creates no issues and is
omitted. -/
def start_orchestration (epic : EpicInfo) (config : StartOrchestrationConfig)
    (st : GHState) : OrchestrationResult × GHState :=
  let acc := orchAccOf epic config st
  let created :=
    if acc.configs = [] then ([], st)
    else create_sub_issues epic.epic_number epic.repo epic.work_repo
      acc.configs st
  ({ epic_number := epic.epic_number
   , sub_issues := if acc.configs = [] then acc.infos else created.1
   , started_phases := acc.started
   , warnings := acc.warnings }, created.2)

/-! ## Epic phase status (`operations/orchestration.rs::get_epic_phase_status`) -/

/-- `orchestration.rs::PhaseStatus`. -/
structure PhaseStatus where
  phase_number : Nat
  phase_name : Str
  approach : Str
  total_issues : Nat
  completed_issues : Nat
  in_progress_issues : Nat
  status : Str
deriving DecidableEq, Repr

/-- The issues of one phase: body references the epic and contains
`**Phase**: {n}`. -/
def phaseIssuesFor (epic_number : Nat) (all_issues : List GHIssue)
    (phase_num : Nat) : List GHIssue :=
  all_issues.filter fun issue =>
    decide (epicRefMarker epic_number <:+: issue.body.getD []) &&
    decide (((("**Phase**: ").data ++ natStr phase_num)) <:+:
      issue.body.getD [])

/-- The textual status classification of
`extract_phase_statuses_from_body` (string-valued variant of
`operations/orchestration.rs`). -/
def statusFromBodyText (status_text : Str) : Str :=
  if decide (("Complete").data <:+: status_text) ||
      decide (("✅").data <:+: status_text) then ("completed").data
  else if decide (("Ready").data <:+: status_text) ||
      decide (("🟡").data <:+: status_text) then ("ready").data
  else if decide (("In Progress").data <:+: status_text) ||
      decide (("🔄").data <:+: status_text) then ("in_progress").data
  else if decide (("Skipped").data <:+: status_text) ||
      decide (("⏭️").data <:+: status_text) then ("skipped").data
  else ("not_started").data

/-- The first index of `c` in `l` (Rust `str::find(char)`). -/
def firstIndexOf (c : Char) : Str → Option Nat
  | [] => none
  | x :: xs =>
    if x = c then some 0
    else (firstIndexOf c xs).map (· + 1)

/-- The line scanner of `extract_phase_statuses_from_body`: tracks the
current `### Phase N:` header and records the status of each
`**Status**:` line under it; a `## ` section header resets the current
phase. The `HashMap` insert is modelled by prepending (lookup takes the
most recent entry). -/
def scanStatuses : List Str → Option Nat → List (Nat × Str) →
    List (Nat × Str)
  | [], _, acc => acc
  | line :: rest, cur, acc =>
    let t := trimRust line
    if (("### Phase ").data).isPrefixOf t then
      let after := trimStartMatches (("### Phase ").data) t
      let cur2 := match firstIndexOf (':') after with
        | some pos =>
          match parseU32 (trimRust (after.take pos)) with
          | some num => some num
          | none => cur
        | none => cur
      scanStatuses rest cur2 acc
    else
      let acc2 :=
        if (("**Status**:").data).isPrefixOf t then
          match cur with
          | some pn =>
            (pn, statusFromBodyText
              (trimRust (trimStartMatches (("**Status**:").data) t))) :: acc
          | none => acc
        else acc
      let cur2 :=
        if (("## ").data).isPrefixOf t ∧
            ¬ (("### ").data).isPrefixOf t then none
        else cur
      scanStatuses rest cur2 acc2

/-- `extract_phase_statuses_from_body` as a lookup: the status string
recorded for a phase number, if any. -/
def bodyStatusFor (body : Str) (phase_num : Nat) : Option Str :=
  ((scanStatuses (rustLines body) none []).find? fun e =>
    e.1 = phase_num).map (·.2)

/-- The per-phase status computation of `get_epic_phase_status`. -/
def phaseStatusOne (epic_number : Nat) (epicBody : Str)
    (all_issues : List GHIssue) (phase_num : Nat) (phase : PhaseConfig) :
    PhaseStatus :=
  let phase_issues := phaseIssuesFor epic_number all_issues phase_num
  let total := phase_issues.length
  let completed :=
    (phase_issues.filter fun i => i.state = ("closed").data).length
  let in_progress :=
    (phase_issues.filter fun i =>
      i.state = ("open").data ∧
        decide ((("staging").data) ∈ i.labels)).length
  let status :=
    if 0 < total then
      if completed = total then ("completed").data
      else ("in_progress").data
    else (bodyStatusFor epicBody phase_num).getD (("not_started").data)
  { phase_number := phase_num
  , phase_name := phase.name
  , approach := phase.approach
  , total_issues := total
  , completed_issues := completed
  , in_progress_issues := in_progress
  , status := status }

/-- The `for (idx, phase) in phases.iter().enumerate()` loop of
`get_epic_phase_status`. -/
def phaseStatusesGo (epic_number : Nat) (body : Str)
    (all_issues : List GHIssue) : Nat → List PhaseConfig → List PhaseStatus
  | _, [] => []
  | idx, phase :: rest =>
    phaseStatusOne epic_number body all_issues (idx + 1) phase ::
      phaseStatusesGo epic_number body all_issues (idx + 1) rest

/-- `operations/orchestration.rs::get_epic_phase_status`, given the fetched
Epic issue body and the issue list. -/
def get_epic_phase_status (epic_number : Nat) (epicBody : Option Str)
    (all_issues : List GHIssue) (phases : List PhaseConfig) :
    List PhaseStatus :=
  phaseStatusesGo epic_number (epicBody.getD []) all_issues 0 phases

/-- Concrete inputs for the C1 witness: one phase, one closed sub-issue,
an Epic body whose `**Status**:` line disagrees (Not Started). -/
def samplePhase : PhaseConfig :=
  { name := ("A").data
  , description := ("d").data
  , approach := ("agent-assisted").data
  , tasks := []
  , files := []
  , dependencies := [] }

def sampleSubIssue : GHIssue :=
  { number := 10
  , title := ("Phase 1: A").data
  , body := some (("**Epic**: #1\n**Phase**: 1\n").data)
  , state := ("closed").data
  , url := ("u10").data
  , labels := [] }

def epicBodyNotStarted : Str :=
  ("### Phase 1: A\n**Status**: Not Started\n").data

def samplePhaseStatus : PhaseStatus :=
  { phase_number := 1
  , phase_name := ("A").data
  , approach := ("agent-assisted").data
  , total_issues := 1
  , completed_issues := 1
  , in_progress_issues := 0
  , status := ("completed").data }

/-- Concrete inputs for the C2 witness: a one-phase epic, starting phase 1
on an empty issue store. -/
def sampleEpic : EpicInfo :=
  { epic_number := 1
  , repo := ("o/r").data
  , work_repo := ("o/w").data
  , title := ("E").data
  , url := ("eu").data
  , phases := [samplePhase] }

def sampleOrchConfig : StartOrchestrationConfig :=
  { phases := [1]
  , auto_spawn_agents := false
  , default_agent_type := ("claude").data
  , worktree_base := [] }

def emptyGH : GHState := { issues := [], nextNumber := 100 }

/-- A phase whose name itself contains the literal `**Phase**:` marker.
The generated sub-issue title then also contains the marker, so the
first body line containing `**Phase**:` is the title heading, whose
tail fails the `u32` parse. -/
def trickyPhase : PhaseConfig :=
  { name := ("**Phase**: 9 x").data
  , description := ("d").data
  , approach := ("agent-assisted").data
  , tasks := []
  , files := []
  , dependencies := [] }

def trickyEpic : EpicInfo :=
  { epic_number := 1
  , repo := ("o/r").data
  , work_repo := ("o/w").data
  , title := ("E").data
  , url := ("eu").data
  , phases := [trickyPhase] }

/-! ## Theorems -/

/-! ## Basic lemmas about the string operations -/

theorem splitChar_ne_nil (sep : Char) (s : Str) : splitChar sep s ≠ [] := by
  induction s with
  | nil => simp [splitChar]
  | cons c rest ih =>
    simp only [splitChar]
    split
    · simp
    · cases h : splitChar sep rest with
      | nil => simp
      | cons l ls => simp

/-- Splitting distributes over an explicit separator occurrence. -/
theorem splitChar_append_sep (sep : Char) (a b : Str) :
    splitChar sep (a ++ sep :: b) = splitChar sep a ++ splitChar sep b := by
  induction a with
  | nil => simp [splitChar]
  | cons c rest ih =>
    by_cases hc : c = sep
    · subst hc
      simp [splitChar, ih]
    · obtain ⟨m, ms, h'⟩ : ∃ m ms, splitChar sep rest = m :: ms := by
        cases h' : splitChar sep rest with
        | nil => exact absurd h' (splitChar_ne_nil sep _)
        | cons m ms => exact ⟨m, ms, rfl⟩
      simp [splitChar, hc, ih, h']

/-- A string without the separator splits into itself alone. -/
theorem splitChar_eq_self (sep : Char) (s : Str) (h : sep ∉ s) :
    splitChar sep s = [s] := by
  induction s with
  | nil => simp [splitChar]
  | cons c rest ih =>
    simp only [List.mem_cons, not_or] at h
    have hc : ¬ c = sep := fun he => h.1 he.symm
    simp [splitChar, hc, ih h.2]

/-- The first segment produced by `splitChar` is a prefix of the input. -/
theorem splitChar_head_prefix_input (sep : Char) (s : Str) (l : Str) (ls : List Str)
    (h : splitChar sep s = l :: ls) : l <+: s := by
  induction s generalizing l ls with
  | nil =>
    simp only [splitChar] at h
    cases h
    simp
  | cons c rest ih =>
    simp only [splitChar] at h
    by_cases hc : c = sep
    · rw [if_pos hc] at h
      cases h
      simp
    · rw [if_neg hc] at h
      obtain ⟨m, ms, h2⟩ : ∃ m ms, splitChar sep rest = m :: ms := by
        cases h2 : splitChar sep rest with
        | nil => exact absurd h2 (splitChar_ne_nil sep _)
        | cons m ms => exact ⟨m, ms, rfl⟩
      rw [h2] at h
      injection h with hl hls
      subst hl
      obtain ⟨t, ht⟩ := ih m ms h2
      exact ⟨t, by rw [List.cons_append, ht]⟩

/-- Every segment produced by `splitChar` is an infix of the input. -/
theorem splitChar_mem_infix_input (sep : Char) (s : Str) (l : Str)
    (h : l ∈ splitChar sep s) : l <:+: s := by
  induction s generalizing l with
  | nil =>
    simp only [splitChar, List.mem_singleton] at h
    simp [h]
  | cons c rest ih =>
    simp only [splitChar] at h
    by_cases hc : c = sep
    · rw [if_pos hc] at h
      rcases List.mem_cons.mp h with h | h
      · simp [h]
      · exact (ih l h).trans (List.infix_cons (List.infix_refl rest))
    · rw [if_neg hc] at h
      cases hs : splitChar sep rest with
      | nil => exact absurd hs (splitChar_ne_nil sep _)
      | cons l' ls' =>
        rw [hs] at h
        rcases List.mem_cons.mp h with h | h
        · subst h
          obtain ⟨t, ht⟩ := splitChar_head_prefix_input sep rest l' ls' hs
          exact List.IsPrefix.isInfix ⟨t, by rw [List.cons_append, ht]⟩
        · exact (ih l (by rw [hs]; exact List.mem_cons_of_mem _ h)).trans
            (List.infix_cons (List.infix_refl rest))

theorem stripCR_infix_self (l : Str) : stripCR l <:+: l := by
  unfold stripCR
  split
  · have h := List.dropLast_prefix l
    exact List.IsPrefix.isInfix h
  · exact List.infix_refl l

/-- `splitSubGo` on a string with no occurrence of the pattern yields the
single segment `acc.reverse ++ s`, whatever the fuel. -/
theorem splitSubGo_no_occurrence (p : Char) (ps : Str) (fuel : Nat) (s acc : Str)
    (h : ¬ (p :: ps) <:+: s) :
    splitSubGo p ps fuel s acc = [acc.reverse ++ s] := by
  induction fuel generalizing s acc with
  | zero => rfl
  | succ fuel ih =>
    cases s with
    | nil => simp [splitSubGo]
    | cons c rest =>
      have hpre : ¬ (p :: ps) <+: (c :: rest) := fun hp => h (List.IsPrefix.isInfix hp)
      have hrest : ¬ (p :: ps) <:+: rest := fun hi =>
        h (hi.trans (List.infix_cons (List.infix_refl rest)))
      simp only [splitSubGo]
      rw [if_neg hpre, ih rest (c :: acc) hrest]
      simp

/-- `splitSubGo` at an occurrence of the pattern emits the accumulated
segment and continues past the pattern, spending `ps.length + 1` fuel. -/
theorem splitSubGo_at_occurrence (p : Char) (ps : Str) (fuel : Nat) (t acc : Str) :
    splitSubGo p ps (fuel + 1) ((p :: ps) ++ t) acc =
      acc.reverse :: splitSubGo p ps fuel t [] := by
  rw [show (p :: ps) ++ t = p :: (ps ++ t) by simp]
  simp only [splitSubGo]
  rw [if_pos (show (p :: ps) <+: p :: (ps ++ t) from ⟨t, by simp⟩), List.drop_left]

/-- Rust `"pat rest".split(pat)` when the remainder contains no further
occurrence: exactly two segments, the empty one and the remainder. -/
theorem splitSub_pattern_head (p : Char) (ps : Str) (t : Str)
    (h : ¬ (p :: ps) <:+: t) :
    splitSub (p :: ps) ((p :: ps) ++ t) = [[], t] := by
  have hlen : ((p :: ps) ++ t).length = (ps.length + t.length) + 1 := by
    simp only [List.length_append, List.length_cons]
    omega
  simp only [splitSub]
  rw [hlen, splitSubGo_at_occurrence,
    splitSubGo_no_occurrence p ps _ t _ h]
  simp

/-! ## Lemmas about decimal digits -/

/-- With enough fuel, the accumulator splits off: the digits computed are
those of `natStr`. -/
theorem natDigitsAux_eq_natStr_append (n : Nat) :
    ∀ fuel acc, n ≤ fuel → natDigitsAux fuel n acc = natStr n ++ acc := by
  induction n using Nat.strong_induction_on with
  | _ n ih =>
    intro fuel acc hfuel
    by_cases h : n < 10
    · have hsmall : ∀ f a, natDigitsAux f n a = Nat.digitChar n :: a := by
        intro f a
        cases f with
        | zero => rw [natDigitsAux, Nat.mod_eq_of_lt h]
        | succ f' => rw [natDigitsAux, if_pos h]
      rw [hsmall fuel acc, natStr, hsmall n []]
      simp
    · obtain ⟨f, rfl⟩ : ∃ f, fuel = f + 1 := by
        cases fuel with
        | zero => omega
        | succ f => exact ⟨f, rfl⟩
      rw [natDigitsAux, if_neg h]
      have hdiv : n / 10 < n := Nat.div_lt_self (by omega) (by omega)
      have hf : n / 10 ≤ f := by
        have := Nat.div_le_self n 10
        omega
      rw [ih _ hdiv f _ hf]
      obtain ⟨g, hg⟩ : ∃ g, n = g + 1 := by
        cases n with
        | zero => omega
        | succ g => exact ⟨g, rfl⟩
      have hn : natStr n = natStr (n / 10) ++ [Nat.digitChar (n % 10)] := by
        rw [natStr, hg, natDigitsAux, if_neg (by omega), ← hg]
        have hg2 : n / 10 ≤ g := by omega
        rw [ih _ hdiv g _ hg2]
      rw [hn]
      simp

theorem natStr_cases (n : Nat) :
    (n < 10 ∧ natStr n = [Nat.digitChar n]) ∨
    (10 ≤ n ∧ natStr n = natStr (n / 10) ++ [Nat.digitChar (n % 10)]) := by
  by_cases h : n < 10
  · left
    refine ⟨h, ?_⟩
    rw [natStr]
    cases hn : n with
    | zero => rw [natDigitsAux, Nat.mod_eq_of_lt (by omega)]
    | succ m => rw [natDigitsAux, if_pos (by omega)]
  · right
    refine ⟨Nat.le_of_not_lt h, ?_⟩
    obtain ⟨g, hg⟩ : ∃ g, n = g + 1 := by
      cases n with
      | zero => omega
      | succ g => exact ⟨g, rfl⟩
    rw [natStr, hg, natDigitsAux, if_neg (by omega), ← hg]
    have hdiv : n / 10 < n := Nat.div_lt_self (by omega) (by omega)
    have hg2 : n / 10 ≤ g := by
      have := Nat.div_le_self n 10
      omega
    rw [natDigitsAux_eq_natStr_append _ g _ hg2]

theorem digitChar_mem_decDigits (d : Nat) (h : d < 10) :
    Nat.digitChar d ∈ decDigits := by
  interval_cases d <;> decide

theorem natStr_all_digits (n : Nat) :
    ∀ c ∈ natStr n, c ∈ decDigits := by
  induction n using Nat.strong_induction_on with
  | _ n ih =>
    intro c hc
    rcases natStr_cases n with ⟨h10, heq⟩ | ⟨h10, heq⟩
    · rw [heq] at hc
      simp only [List.mem_singleton] at hc
      subst hc
      exact digitChar_mem_decDigits n h10
    · rw [heq] at hc
      rcases List.mem_append.mp hc with hc | hc
      · exact ih (n / 10) (Nat.div_lt_self (by omega) (by omega)) c hc
      · simp only [List.mem_singleton] at hc
        subst hc
        exact digitChar_mem_decDigits _ (Nat.mod_lt _ (by omega))

theorem natStr_ne_nil (n : Nat) : natStr n ≠ [] := by
  rcases natStr_cases n with ⟨_, heq⟩ | ⟨_, heq⟩ <;> simp [heq]

theorem digitVal?_digitChar (d : Nat) (h : d < 10) :
    digitVal? (Nat.digitChar d) = some d := by
  interval_cases d <;> decide

theorem parseNatAux_append (a b : Str) (v : Nat) :
    parseNatAux (a ++ b) v =
      (parseNatAux a v).bind (fun w => parseNatAux b w) := by
  induction a generalizing v with
  | nil => simp [parseNatAux]
  | cons c rest ih =>
    simp only [List.cons_append, parseNatAux]
    cases digitVal? c with
    | none => simp
    | some d => simp [ih]

theorem parseNatAux_natStr (n v : Nat) :
    parseNatAux (natStr n) v = some (v * 10 ^ (natStr n).length + n) := by
  induction n using Nat.strong_induction_on generalizing v with
  | _ n ih =>
    rcases natStr_cases n with ⟨h10, heq⟩ | ⟨h10, heq⟩
    · rw [heq]
      simp [parseNatAux, digitVal?_digitChar n h10]
    · rw [heq, parseNatAux_append,
        ih (n / 10) (Nat.div_lt_self (by omega) (by omega))]
      simp only [Option.bind_some, Option.some_bind, parseNatAux,
        digitVal?_digitChar _ (Nat.mod_lt _ (by omega)), List.length_append,
        List.length_singleton]
      congr 1
      have hd : 10 * (n / 10) + n % 10 = n := Nat.div_add_mod n 10
      have hexp : (10 : Nat) ^ ((natStr (n / 10)).length + 1) =
          10 ^ (natStr (n / 10)).length * 10 := pow_succ 10 _
      calc (v * 10 ^ (natStr (n / 10)).length + n / 10) * 10 + n % 10
          = v * (10 ^ (natStr (n / 10)).length * 10) +
            (10 * (n / 10) + n % 10) := by ring
        _ = v * 10 ^ ((natStr (n / 10)).length + 1) + n := by rw [hexp, hd]

theorem decDigits_not_whitespace (c : Char) (h : c ∈ decDigits) :
    isRustWhitespace c = false := by
  simp only [decDigits, List.mem_cons, List.not_mem_nil, or_false] at h
  rcases h with rfl | rfl | rfl | rfl | rfl | rfl | rfl | rfl | rfl | rfl <;>
    decide

theorem decDigits_ne_plus (c : Char) (h : c ∈ decDigits) : c ≠ '+' := by
  simp only [decDigits, List.mem_cons, List.not_mem_nil, or_false] at h
  rcases h with rfl | rfl | rfl | rfl | rfl | rfl | rfl | rfl | rfl | rfl <;>
    decide

theorem decDigits_ne_upper_p (c : Char) (h : c ∈ decDigits) : c ≠ 'P' := by
  simp only [decDigits, List.mem_cons, List.not_mem_nil, or_false] at h
  rcases h with rfl | rfl | rfl | rfl | rfl | rfl | rfl | rfl | rfl | rfl <;>
    decide

theorem decDigits_ne_newline (c : Char) (h : c ∈ decDigits) : c ≠ '\n' := by
  simp only [decDigits, List.mem_cons, List.not_mem_nil, or_false] at h
  rcases h with rfl | rfl | rfl | rfl | rfl | rfl | rfl | rfl | rfl | rfl <;>
    decide

/-- Round trip: the decimal digits of a `u32` value parse back to it. -/
theorem parseU32_natStr (n : Nat) (h : n < 2 ^ 32) :
    parseU32 (natStr n) = some n := by
  have hne := natStr_ne_nil n
  have hhead : (natStr n).head? ≠ some '+' := by
    cases hd : natStr n with
    | nil => simp
    | cons c r =>
      have hc : c ∈ decDigits :=
        natStr_all_digits n c (by rw [hd]; exact List.mem_cons_self _ _)
      simp [decDigits_ne_plus c hc]
  rw [parseU32]
  simp only [if_neg hhead, if_neg hne, parseNatAux_natStr]
  have h' : n < 4294967296 := by omega
  simp [h']

theorem natStr_not_whitespace (n : Nat) :
    ∀ c ∈ natStr n, isRustWhitespace c = false :=
  fun c hc => decDigits_not_whitespace c (natStr_all_digits n c hc)

theorem natStr_no_upper_p (n : Nat) : 'P' ∉ natStr n :=
  fun h => decDigits_ne_upper_p 'P' (natStr_all_digits n 'P' h) rfl

theorem natStr_no_newline (n : Nat) : '\n' ∉ natStr n :=
  fun h => decDigits_ne_newline '\n' (natStr_all_digits n '\n' h) rfl

/-- C7. Port allocation is deterministic and periodic modulo 100: adding any
multiple of 100 to a valid (`u64`) issue number leaves the allocated range
unchanged, the range is `(30000 + (n % 100) * 100, base + 99)`, and
`remap_port_to_range` sends container port `c` to `base + c % 100`. -/
theorem allocate_port_range_periodic (n k c : Nat)
    (hvalid : n + 100 * k < 2 ^ 64) :
    allocate_port_range (n + 100 * k) = allocate_port_range n ∧
    allocate_port_range n =
      (30000 + n % 100 * 100, 30000 + n % 100 * 100 + 99) ∧
    remap_port_to_range c n = 30000 + n % 100 * 100 + c % 100 := by
  have hmod : (n + 100 * k) % 100 = n % 100 := by
    omega
  have hn : n % 100 < 100 := Nat.mod_lt _ (by omega)
  have hc : c % 100 < 100 := Nat.mod_lt _ (by omega)
  refine ⟨?_, ?_, ?_⟩
  · simp [allocate_port_range, hmod]
  · simp only [allocate_port_range, Prod.mk.injEq]
    constructor
    · omega
    · omega
  · simp only [remap_port_to_range, allocate_port_range]
    omega

/-- Witness for C7 at `n = 142`, `k = 3`, `c = 3000`. -/
theorem allocate_port_range_periodic_witness :
    allocate_port_range (142 + 100 * 3) = allocate_port_range 142 ∧
    allocate_port_range 142 =
      (30000 + 142 % 100 * 100, 30000 + 142 % 100 * 100 + 99) ∧
    remap_port_to_range 3000 142 = 30000 + 142 % 100 * 100 + 3000 % 100 :=
  allocate_port_range_periodic 142 3 3000 (by norm_num)

/-- Every element of a `recover_sessions` fold result is either from the
accumulator or carries the classification of its own liveness/worktree
flags. -/
theorem recover_sessions_fold_mem (hostname : Str) (pathExists : Str → Bool)
    (sessions : List TmuxSession) (acc : List RecoveredSession)
    (r : RecoveredSession)
    (hr : r ∈ sessions.foldl
      (fun acc session =>
        match session.metadata with
        | none => acc
        | some metadata =>
          if metadata.machine_id ≠ hostname then acc
          else
            let worktree_exists :=
              (metadata.worktree.map pathExists).getD false
            let tmux_alive := session.status = SessionStatus.Running
            acc ++ [{ metadata := metadata
                    , source := RecoverySource.Tmux
                    , tmux_alive := tmux_alive
                    , worktree_exists := worktree_exists
                    , recommended_action :=
                        recoveryClassify tmux_alive worktree_exists }]) acc) :
    r ∈ acc ∨
      r.recommended_action = recoveryClassify r.tmux_alive r.worktree_exists := by
  induction sessions generalizing acc with
  | nil => exact Or.inl hr
  | cons session rest ih =>
    simp only [List.foldl_cons] at hr
    rcases ih _ hr with hacc | hclass
    · cases hmeta : session.metadata with
      | none =>
        simp only [hmeta] at hacc
        exact Or.inl hacc
      | some metadata =>
        simp only [hmeta] at hacc
        by_cases hmach : metadata.machine_id ≠ hostname
        · rw [if_pos hmach] at hacc
          exact Or.inl hacc
        · rw [if_neg hmach] at hacc
          rcases List.mem_append.mp hacc with h | h
          · exact Or.inl h
          · simp only [List.mem_singleton] at h
            subst h
            exact Or.inr rfl
    · exact Or.inr hclass

/-- C6. Recovery classification table: every session recovered by
`recover_sessions` carries the recommended action determined exactly by the
pair (session alive, worktree exists): alive ⇒ Resume; dead with worktree ⇒
Restart; dead without worktree ⇒ Cleanup. -/
theorem recover_sessions_classification (hostname : Str)
    (pathExists : Str → Bool) (sessions : List TmuxSession)
    (r : RecoveredSession)
    (hr : r ∈ recover_sessions hostname pathExists sessions) :
    (r.tmux_alive = true → r.recommended_action = RecoveryAction.Resume) ∧
    (r.tmux_alive = false → r.worktree_exists = true →
      r.recommended_action = RecoveryAction.Restart) ∧
    (r.tmux_alive = false → r.worktree_exists = false →
      r.recommended_action = RecoveryAction.Cleanup) := by
  have hclass := recover_sessions_fold_mem hostname pathExists sessions [] r hr
  rcases hclass with h | h
  · exact absurd h (List.not_mem_nil r)
  · refine ⟨?_, ?_, ?_⟩
    · intro ha
      rw [h, ha]
      rfl
    · intro ha hw
      rw [h, ha, hw]
      rfl
    · intro ha hw
      rw [h, ha, hw]
      rfl

/-- Witness for C6: a dead session without a worktree is classified
`Cleanup`. -/
theorem recover_sessions_classification_witness :
    ∃ r, r ∈ recover_sessions (("mach0").data) (fun _ => false)
      [{ name := ("handy-agent-7").data, attached := false, windows := 1,
         created := 0, metadata := some sampleMetadata,
         status := SessionStatus.Stopped }] ∧
    (r.tmux_alive = false → r.worktree_exists = false →
      r.recommended_action = RecoveryAction.Cleanup) := by
  refine ⟨{ metadata := sampleMetadata, source := RecoverySource.Tmux,
            tmux_alive := false, worktree_exists := false,
            recommended_action := RecoveryAction.Cleanup }, ?_, ?_⟩
  · simp [recover_sessions, sampleMetadata, recoveryClassify]
  · exact (recover_sessions_classification (("mach0").data) (fun _ => false)
      [{ name := ("handy-agent-7").data, attached := false, windows := 1,
         created := 0, metadata := some sampleMetadata,
         status := SessionStatus.Stopped }] _
      (by simp [recover_sessions, sampleMetadata, recoveryClassify])).2.2

/-- C3 as stated is false on the code: a session whose stored metadata has
no machine identifier is not treated as belonging to an unknown machine —
`get_session_metadata` substitutes the current hostname, so
`recover_sessions` classifies the session for automatic action. Concretely,
a dead session whose environment carries only `HANDY_AGENT_TYPE` (no
`HANDY_MACHINE_ID`) and no worktree is classified `Cleanup`. -/
theorem missing_machine_id_is_classified :
    envValue (("HANDY_AGENT_TYPE=claude").data) ENV_MACHINE_ID = none ∧
    (recover_sessions (("mach0").data) (fun _ => false)
      [{ name := ("handy-agent-7").data, attached := false, windows := 1,
         created := 0,
         metadata := some (get_session_metadata (("handy-agent-7").data)
           (("HANDY_AGENT_TYPE=claude").data) (("mach0").data)
           (("t0").data)),
         status := SessionStatus.Stopped }]).map
      (fun r => r.recommended_action) = [RecoveryAction.Cleanup] := by
  constructor
  · decide
  · decide

/-- C3 amended: `get_session_metadata` fills a missing machine identifier
with the current machine's hostname (and a missing agent type with
`"unknown"`), so a session with incomplete metadata is treated as local and
classified by the standard (alive, worktree) table — it is excluded from
recovery only when its stored machine id differs from the current
hostname. -/
theorem missing_machine_id_defaults_to_hostname (session_name stdout
    hostname now : Str) (attached : Bool) (windows created : Nat)
    (status : SessionStatus) (pathExists : Str → Bool)
    (hmissing : envValue stdout ENV_MACHINE_ID = none) :
    (get_session_metadata session_name stdout hostname now).machine_id =
      hostname ∧
    (recover_sessions hostname pathExists
      [{ name := session_name, attached := attached, windows := windows,
         created := created,
         metadata := some (get_session_metadata session_name stdout
           hostname now),
         status := status }]).map (fun r => r.recommended_action) =
      [recoveryClassify (status = SessionStatus.Running)
        (((get_session_metadata session_name stdout hostname now).worktree.map
          pathExists).getD false)] := by
  have hmach :
      (get_session_metadata session_name stdout hostname now).machine_id =
        hostname := by
    simp [get_session_metadata, hmissing]
  refine ⟨hmach, ?_⟩
  simp [recover_sessions, hmach]

/-- Witness for the amended C3. -/
theorem missing_machine_id_defaults_to_hostname_witness :
    (get_session_metadata (("handy-agent-7").data)
      (("HANDY_AGENT_TYPE=claude").data) (("mach0").data)
      (("t0").data)).machine_id = ("mach0").data ∧
    (recover_sessions (("mach0").data) (fun _ => false)
      [{ name := ("handy-agent-7").data, attached := false, windows := 1,
         created := 0,
         metadata := some (get_session_metadata (("handy-agent-7").data)
           (("HANDY_AGENT_TYPE=claude").data) (("mach0").data)
           (("t0").data)),
         status := SessionStatus.Stopped }]).map
      (fun r => r.recommended_action) =
      [recoveryClassify (SessionStatus.Stopped = SessionStatus.Running)
        (((get_session_metadata (("handy-agent-7").data)
          (("HANDY_AGENT_TYPE=claude").data) (("mach0").data)
          (("t0").data)).worktree.map (fun _ => false)).getD false)] :=
  missing_machine_id_defaults_to_hostname (("handy-agent-7").data)
    (("HANDY_AGENT_TYPE=claude").data) (("mach0").data) (("t0").data)
    false 1 0 SessionStatus.Stopped (fun _ => false) (by decide)

/-- C10. Orphan cleanup removes unparseable sandbox names: every listed
container whose name suffix does not parse as an issue number is classified
as orphaned and removed, and a container with a parsed issue number is
removed exactly when no live session matches it. -/
theorem cleanup_removes_unparseable (container_names : List Str)
    (sessions : List TmuxSession) (name : Str)
    (hmem : name ∈ container_names) :
    (containerIssueNum name = none →
      name ∈ cleanup_orphaned_containers container_names sessions) ∧
    (∀ num, containerIssueNum name = some num →
      (name ∈ cleanup_orphaned_containers container_names sessions ↔
        num ∉ activeIssueNumbers sessions)) := by
  constructor
  · intro hnone
    refine List.mem_filter.mpr ⟨hmem, ?_⟩
    simp [isOrphanContainer, hnone]
  · intro num hsome
    constructor
    · intro hin hact
      have hfil := (List.mem_filter.mp hin).2
      simp only [isOrphanContainer, hsome, Bool.not_eq_eq_eq_not,
        Bool.not_true] at hfil
      simp at hfil
      exact hfil hact
    · intro hact
      refine List.mem_filter.mpr ⟨hmem, ?_⟩
      simp only [isOrphanContainer, hsome, Bool.not_eq_eq_eq_not,
        Bool.not_true]
      simp
      exact hact

/-- Witness for C10: `handy-sandbox-abc` does not parse and is removed;
`handy-sandbox-9` parses to 9 and, with no sessions, is removed too. -/
theorem cleanup_removes_unparseable_witness :
    (("handy-sandbox-abc").data ∈
      cleanup_orphaned_containers
        [("handy-sandbox-abc").data, ("handy-sandbox-9").data] []) ∧
    (("handy-sandbox-9").data ∈
      cleanup_orphaned_containers
        [("handy-sandbox-abc").data, ("handy-sandbox-9").data] []) := by
  constructor
  · exact (cleanup_removes_unparseable _ [] _
      (by decide)).1 (by decide)
  · exact ((cleanup_removes_unparseable _ [] _
      (by simp)).2 9 (by decide)).mpr (by decide)

/-- C4 as stated is false on the code: `skip` and `fail` carry no
terminal-state guard, so applying them to an item whose status is already
terminal (`Completed`) does not leave the status unchanged — it overwrites
it with `Skipped` / `Failed`. -/
theorem skip_overwrites_terminal :
    completedItem.status = PipelineStatus.Completed ∧
    (completedItem.skip (("t2").data)).status ≠ completedItem.status ∧
    (completedItem.fail (("e").data) (("t2").data)).status ≠
      completedItem.status := by
  refine ⟨rfl, ?_, ?_⟩ <;> decide

/-- C4 amended: `skip` and `fail` transition every item — from any status,
terminal or not — to `Skipped` / `Failed`, stamping `completed_at` (and,
for `fail`, recording the error); in particular they are reachable from
every non-terminal state, but the methods do not guard against terminal
states. -/
theorem skip_fail_unconditional (item : PipelineItem) (error now : Str) :
    (item.skip now).status = PipelineStatus.Skipped ∧
    (item.skip now).completed_at = some now ∧
    (item.fail error now).status = PipelineStatus.Failed ∧
    (item.fail error now).completed_at = some now ∧
    (item.fail error now).error = some error :=
  ⟨rfl, rfl, rfl, rfl, rfl⟩

/-! ## C5: `Completed` is reached only through a merged PR -/

theorem updateFirstMatch_mem (p : PipelineItem → Bool)
    (f : PipelineItem → PipelineItem) (l : List PipelineItem)
    (out : PipelineItem) (h : out ∈ updateFirstMatch p f l) :
    out ∈ l ∨ ∃ x ∈ l, out = f x := by
  induction l with
  | nil => simp [updateFirstMatch] at h
  | cons item rest ih =>
    simp only [updateFirstMatch] at h
    split at h
    · rcases List.mem_cons.mp h with h | h
      · exact Or.inr ⟨item, List.mem_cons_self _ _, h⟩
      · exact Or.inl (List.mem_cons_of_mem _ h)
    · rcases List.mem_cons.mp h with h | h
      · exact Or.inl (by simp [h])
      · rcases ih h with h | ⟨x, hx, hfx⟩
        · exact Or.inl (List.mem_cons_of_mem _ h)
        · exact Or.inr ⟨x, List.mem_cons_of_mem _ hx, hfx⟩

theorem aggUpdate_id (s : AgentStatus) (item : PipelineItem) :
    (aggUpdate s item).id = item.id := by
  simp only [aggUpdate]
  split <;> rfl

theorem aggUpdate_status (s : AgentStatus) (item : PipelineItem) :
    (aggUpdate s item).status = item.status ∨
    (aggUpdate s item).status = PipelineStatus.InProgress := by
  simp only [aggUpdate]
  split
  · exact Or.inl rfl
  · exact Or.inr rfl

theorem aggStep_tracks_source (work_repo : Str) (items : List PipelineItem)
    (session : AgentStatus) (out : PipelineItem)
    (h : out ∈ aggStep work_repo items session) :
    ∃ src ∈ items, out.id = src.id ∧
      (out.status = src.status ∨ out.status = PipelineStatus.InProgress) := by
  rw [aggStep] at h
  cases hsn : session.issue_number with
  | none =>
    rw [hsn] at h
    exact ⟨out, h, rfl, Or.inl rfl⟩
  | some n =>
    rw [hsn] at h
    rcases updateFirstMatch_mem _ _ _ _ h with h | ⟨x, hx, hfx⟩
    · exact ⟨out, h, rfl, Or.inl rfl⟩
    · subst hfx
      exact ⟨x, hx, aggUpdate_id session x, aggUpdate_status session x⟩

theorem aggregate_fold_tracks_source (work_repo : Str)
    (sessions : List AgentStatus) (items : List PipelineItem)
    (out : PipelineItem)
    (h : out ∈ sessions.foldl (aggStep work_repo) items) :
    ∃ src ∈ items, out.id = src.id ∧
      (out.status = src.status ∨ out.status = PipelineStatus.InProgress) := by
  induction sessions generalizing items with
  | nil => exact ⟨out, h, rfl, Or.inl rfl⟩
  | cons session rest ih =>
    simp only [List.foldl_cons] at h
    rcases ih _ h with ⟨mid, hmid, hid, hst⟩
    rcases aggStep_tracks_source work_repo items session mid hmid with
      ⟨src, hsrc, hid2, hst2⟩
    refine ⟨src, hsrc, hid.trans hid2, ?_⟩
    rcases hst with hst | hst
    · rw [hst]
      exact hst2
    · exact Or.inr hst

/-- C5. A `PipelineItem` reaches `Completed` only through a merged PR:
`link_pr` completes exactly on remote state `"merged"`; `update_pr_status`
completes exactly on `"merged"`/`"MERGED"` (the two case spellings of the
merged state); `from_issue`, `start_work`, `skip`, `fail` never produce
`Completed`; and session aggregation only ever promotes to `InProgress`, so
an aggregated item that is `Completed` was already `Completed` in the
stored state. -/
theorem completed_only_via_merged_pr :
    (∀ item pr, ((PipelineItem.link_pr item pr).status =
        PipelineStatus.Completed ↔ pr.state = ("merged").data)) ∧
    (∀ item pr hrev happ now,
      ((PipelineItem.update_pr_status item pr hrev happ now).status =
        PipelineStatus.Completed ↔
        (pr.state = ("merged").data ∨ pr.state = ("MERGED").data))) ∧
    (∀ issue tr wr agentType ts now,
      (PipelineItem.from_issue issue tr wr agentType ts now).status =
        PipelineStatus.Queued) ∧
    (∀ item sn wp bn mi now,
      (PipelineItem.start_work item sn wp bn mi now).status =
        PipelineStatus.InProgress) ∧
    (∀ item now, (PipelineItem.skip item now).status =
      PipelineStatus.Skipped) ∧
    (∀ item e now, (PipelineItem.fail item e now).status =
      PipelineStatus.Failed) ∧
    (∀ st sessions wr out, out ∈ aggregate_pipeline_state st sessions wr →
      out.status = PipelineStatus.Completed →
      ∃ src ∈ st.items.map (·.2), src.id = out.id ∧
        src.status = PipelineStatus.Completed) := by
  refine ⟨?_, ?_, fun _ _ _ _ _ _ => rfl, fun _ _ _ _ _ _ => rfl,
    fun _ _ => rfl, fun _ _ _ => rfl, ?_⟩
  · intro item pr
    simp only [PipelineItem.link_pr]
    by_cases h1 : pr.state = ("merged").data
    · simp [h1]
    · by_cases h2 : pr.state = ("closed").data
      · simp [h1, h2]
      · by_cases h3 : pr.is_draft
        · simp [h1, h2, h3]
        · simp [h1, h2, h3]
  · intro item pr hrev happ now
    simp only [PipelineItem.update_pr_status]
    by_cases h1 : pr.state = ("merged").data ∨ pr.state = ("MERGED").data
    · simp [h1]
    · by_cases h2 : pr.state = ("closed").data ∨ pr.state = ("CLOSED").data
      · simp [h1, h2]
      · by_cases h3 : happ = true
        · simp [h1, h2, h3]
        · by_cases h4 : hrev = true
          · simp [h1, h2, h3, h4]
          · by_cases h5 : pr.is_draft
            · simp [h1, h2, h3, h4, h5]
            · simp [h1, h2, h3, h4, h5]
  · intro st sessions wr out hmem hcomp
    rw [aggregate_pipeline_state] at hmem
    rcases aggregate_fold_tracks_source wr sessions (st.items.map (·.2))
      out hmem with ⟨src, hsrc, hid, hst⟩
    rcases hst with hst | hst
    · exact ⟨src, hsrc, hid.symm, by rw [← hst, hcomp]⟩
    · rw [hcomp] at hst
      exact absurd hst (by decide)

/-- Witness for C5: `link_pr` with a merged PR completes the item, and an
aggregated `Completed` item traces back to a stored `Completed` item. -/
theorem completed_only_via_merged_pr_witness :
    (PipelineItem.link_pr completedItem mergedPr).status =
      PipelineStatus.Completed ∧
    ∃ src ∈ completedState.items.map (·.2), src.id = completedItem.id ∧
      src.status = PipelineStatus.Completed := by
  constructor
  · exact (completed_only_via_merged_pr.1 completedItem mergedPr).mpr rfl
  · exact completed_only_via_merged_pr.2.2.2.2.2.2 completedState []
      (("test/repo").data) completedItem (by simp [aggregate_pipeline_state,
        completedState]) rfl

/-! ## C9: `archive_item` -/

theorem trimFront_eq_drop (l : List PipelineItem) (m : Nat) :
    trimFront l m = l.drop (l.length - m) := by
  induction l with
  | nil => simp [trimFront]
  | cons x rest ih =>
    rw [trimFront]
    by_cases h : (x :: rest).length ≤ m
    · rw [if_pos h]
      have : (x :: rest).length - m = 0 := by omega
      rw [this, List.drop_zero]
    · rw [if_neg h]
      have hlen : (x :: rest).length - m = (rest.length - m) + 1 := by
        simp only [List.length_cons] at h ⊢
        omega
      rw [hlen, List.drop_succ_cons, ih]

/-- C9. `archive_item` on a present id removes the item from the active set
regardless of its status and returns it; it records the item in history —
trimming the oldest entries so the history stays within `max_history` —
exactly when the status is terminal, and leaves history untouched
otherwise. -/
theorem archive_item_spec (st : PipelineState) (id : Str)
    (entry : Str × PipelineItem)
    (h : st.items.find? (fun p => p.1 = id) = some entry) :
    (st.archive_item id).1 = some entry.2 ∧
    (st.archive_item id).2.items = st.items.filter (fun p => ¬ p.1 = id) ∧
    (entry.2.is_complete = true →
      (st.archive_item id).2.history =
        (st.history ++ [entry.2]).drop
          ((st.history.length + 1) - st.max_history) ∧
      (st.archive_item id).2.history.length ≤ st.max_history) ∧
    (entry.2.is_complete = false →
      (st.archive_item id).2.history = st.history) := by
  simp only [PipelineState.archive_item, h]
  by_cases hc : entry.2.is_complete
  · rw [if_pos hc]
    refine ⟨rfl, rfl, fun _ => ⟨?_, ?_⟩, fun hfc => absurd hc (by simp [hfc])⟩
    · rw [trimFront_eq_drop]
      simp
    · rw [trimFront_eq_drop]
      simp only [List.length_drop, List.length_append, List.length_singleton]
      omega
  · rw [if_neg hc]
    exact ⟨rfl, rfl, fun htc => absurd htc (by simp_all), fun _ => rfl⟩

/-- Witness for C9: archiving the completed item from `completedState`. -/
theorem archive_item_spec_witness :
    (completedState.archive_item completedItem.id).1 = some completedItem ∧
    (completedState.archive_item completedItem.id).2.items =
      completedState.items.filter (fun p => ¬ p.1 = completedItem.id) ∧
    (completedState.archive_item completedItem.id).2.history.length ≤
      completedState.max_history := by
  have h := archive_item_spec completedState completedItem.id
    (completedItem.id, completedItem) (by simp [completedState])
  exact ⟨h.1, h.2.1, (h.2.2.1 (by decide)).2⟩

/-! ## C8: `truncate_title` -/

theorem lastIndexOf_none (c : Char) (l : Str)
    (h : lastIndexOf c l = none) : c ∉ l := by
  induction l with
  | nil => simp
  | cons x xs ih =>
    rw [lastIndexOf] at h
    cases hx : lastIndexOf c xs with
    | some k => rw [hx] at h; simp at h
    | none =>
      rw [hx] at h
      by_cases hxc : x = c
      · rw [if_pos hxc] at h; simp at h
      · rw [if_neg hxc] at h
        intro hm
        rcases List.mem_cons.mp hm with rfl | hm'
        · exact hxc rfl
        · exact ih hx hm'

theorem lastIndexOf_some (c : Char) (l : Str) (i : Nat)
    (h : lastIndexOf c l = some i) :
    i < l.length ∧ l.get? i = some c ∧
      ∀ j, i < j → l.get? j ≠ some c := by
  induction l generalizing i with
  | nil => simp [lastIndexOf] at h
  | cons x xs ih =>
    rw [lastIndexOf] at h
    cases hx : lastIndexOf c xs with
    | some k =>
      rw [hx] at h
      injection h with h
      subst h
      obtain ⟨hlt, hget, hlast⟩ := ih k hx
      refine ⟨by simpa using Nat.succ_lt_succ hlt, by simpa using hget, ?_⟩
      intro j hj
      cases j with
      | zero => omega
      | succ j' =>
        simp only [List.get?_cons_succ]
        exact hlast j' (by omega)
    | none =>
      rw [hx] at h
      by_cases hxc : x = c
      · rw [if_pos hxc] at h
        injection h with h
        subst h
        refine ⟨by simp, by simpa using hxc, ?_⟩
        intro j hj
        cases j with
        | zero => omega
        | succ j' =>
          simp only [List.get?_cons_succ]
          intro hget
          exact lastIndexOf_none c xs hx (List.get?_mem hget)
      · rw [if_neg hxc] at h
        simp at h

theorem get?_take_of_lt (l : Str) (n i : Nat) (h : i < n) :
    (l.take n).get? i = l.get? i := by
  induction l generalizing n i with
  | nil => simp
  | cons x xs ih =>
    cases n with
    | zero => omega
    | succ n' =>
      cases i with
      | zero => simp
      | succ i' =>
        simp only [List.take_succ_cons, List.get?_cons_succ]
        exact ih n' i' (by omega)

/-- C8 as stated is false on the code: `truncate_title` trims its input
first, so a string within the length limit but carrying surrounding
whitespace is not returned unchanged. -/
theorem truncate_title_trims_short_input :
    ((" a").data).length ≤ 100 ∧
    truncate_title ((" a").data) ≠ (" a").data := by
  constructor
  · decide
  · decide

/-- C8 amended: `truncate_title` first trims whitespace; the trimmed title
is returned unchanged when it is at most 100 characters, and otherwise the
result is at most 100 characters, formed by cutting at the last space
before index 97 when one exists (at index 97 otherwise) and appending
`...`; consequently every sub-issue title produced by `create_phase_issue`
is at most 100 characters. -/
theorem truncate_title_spec :
    (∀ s, (truncate_title s).length ≤ 100) ∧
    (∀ s, (trimRust s).length ≤ 100 → truncate_title s = trimRust s) ∧
    (∀ s, 100 < (trimRust s).length →
      ∃ cut, cut ≤ 97 ∧
        truncate_title s = (trimRust s).take cut ++ ("...").data ∧
        (' ' ∈ (trimRust s).take 97 →
          (trimRust s).get? cut = some ' ' ∧
          ∀ j, cut < j → j < 97 → (trimRust s).get? j ≠ some ' ') ∧
        (' ' ∉ (trimRust s).take 97 → cut = 97)) ∧
    (∀ phase_num phase work_repo agent,
      (create_phase_issue phase_num phase work_repo agent).title.length ≤
        100) := by
  have hcut : ∀ s, 100 < (trimRust s).length →
      ∃ cut, cut ≤ 97 ∧
        truncate_title s = (trimRust s).take cut ++ ("...").data ∧
        (' ' ∈ (trimRust s).take 97 →
          (trimRust s).get? cut = some ' ' ∧
          ∀ j, cut < j → j < 97 → (trimRust s).get? j ≠ some ' ') ∧
        (' ' ∉ (trimRust s).take 97 → cut = 97) := by
    intro s hlong
    rw [truncate_title, if_neg (by omega)]
    cases hL : lastIndexOf ' ' ((trimRust s).take (100 - 3)) with
    | none =>
      refine ⟨97, le_refl _, by simp, ?_, fun _ => rfl⟩
      intro hmem
      exact absurd hmem (by
        have := lastIndexOf_none ' ' _ hL
        simpa using this)
    | some i =>
      obtain ⟨hlt, hget, hlast⟩ := lastIndexOf_some ' ' _ i hL
      have htklen : ((trimRust s).take (100 - 3)).length = 97 := by
        simp only [List.length_take]
        omega
      have hi97 : i < 97 := by omega
      refine ⟨i, by omega, by simp, fun _ => ⟨?_, ?_⟩, ?_⟩
      · rw [← get?_take_of_lt (trimRust s) (100 - 3) i (by omega)]
        exact hget
      · intro j hij hj97
        rw [← get?_take_of_lt (trimRust s) (100 - 3) j (by omega)]
        exact hlast j hij
      · intro hnotmem
        have hmem : ' ' ∈ (trimRust s).take 97 := by
          have := List.get?_mem
            (by rw [get?_take_of_lt (trimRust s) 97 i hi97]
                rw [← get?_take_of_lt (trimRust s) (100 - 3) i (by omega)]
                exact hget)
          exact this
        exact absurd hmem hnotmem
  have hbound : ∀ s, (truncate_title s).length ≤ 100 := by
    intro s
    by_cases hlen : (trimRust s).length ≤ 100
    · rw [truncate_title, if_pos hlen]
      exact hlen
    · obtain ⟨cut, hcut97, heq, _, _⟩ := hcut s (by omega)
      rw [heq]
      simp only [List.length_append, List.length_take]
      have : (("...").data).length = 3 := by decide
      rw [this]
      omega
  refine ⟨hbound, ?_, hcut, ?_⟩
  · intro s hlen
    rw [truncate_title, if_pos hlen]
  · intro phase_num phase work_repo agent
    exact hbound _

/-- Witness for the amended C8: a 150-character title is cut at its last
space before index 97 and stays within the bound. -/
theorem truncate_title_spec_witness :
    (truncate_title (List.replicate 50 ('a') ++ (' ') ::
      List.replicate 99 ('b'))).length ≤ 100 ∧
    (100 < (trimRust (List.replicate 50 ('a') ++ (' ') ::
      List.replicate 99 ('b'))).length →
      ∃ cut, cut ≤ 97 ∧
        truncate_title (List.replicate 50 ('a') ++ (' ') ::
          List.replicate 99 ('b')) =
          (trimRust (List.replicate 50 ('a') ++ (' ') ::
            List.replicate 99 ('b'))).take cut ++ ("...").data ∧
        (' ' ∈ (trimRust (List.replicate 50 ('a') ++ (' ') ::
            List.replicate 99 ('b'))).take 97 →
          (trimRust (List.replicate 50 ('a') ++ (' ') ::
            List.replicate 99 ('b'))).get? cut = some ' ' ∧
          ∀ j, cut < j → j < 97 →
            (trimRust (List.replicate 50 ('a') ++ (' ') ::
              List.replicate 99 ('b'))).get? j ≠ some ' ') ∧
        (' ' ∉ (trimRust (List.replicate 50 ('a') ++ (' ') ::
            List.replicate 99 ('b'))).take 97 → cut = 97)) :=
  ⟨truncate_title_spec.1 _, truncate_title_spec.2.2.1 _⟩

/-! ## C1: structured phase evidence overrides the body text -/

theorem phaseStatusesGo_get? (epic_number : Nat) (body : Str)
    (issues : List GHIssue) (idx : Nat) (phases : List PhaseConfig)
    (i : Nat) :
    (phaseStatusesGo epic_number body issues idx phases).get? i =
      (phases.get? i).map
        (phaseStatusOne epic_number body issues (idx + i + 1)) := by
  induction phases generalizing idx i with
  | nil => simp [phaseStatusesGo]
  | cons phase rest ih =>
    cases i with
    | zero => simp [phaseStatusesGo]
    | succ i' =>
      simp only [phaseStatusesGo, List.get?_cons_succ]
      rw [ih (idx + 1) i']
      have : idx + 1 + i' + 1 = idx + (i' + 1) + 1 := by omega
      rw [this]

theorem phaseStatusOne_total (epic_number : Nat) (body : Str)
    (issues : List GHIssue) (pn : Nat) (phase : PhaseConfig) :
    (phaseStatusOne epic_number body issues pn phase).total_issues =
      (phaseIssuesFor epic_number issues pn).length := rfl

theorem phaseStatusOne_completed (epic_number : Nat) (body : Str)
    (issues : List GHIssue) (pn : Nat) (phase : PhaseConfig) :
    (phaseStatusOne epic_number body issues pn phase).completed_issues =
      ((phaseIssuesFor epic_number issues pn).filter fun i =>
        i.state = ("closed").data).length := rfl

theorem phaseStatusOne_status_pos (epic_number : Nat) (body : Str)
    (issues : List GHIssue) (pn : Nat) (phase : PhaseConfig)
    (h : 0 < (phaseIssuesFor epic_number issues pn).length) :
    (phaseStatusOne epic_number body issues pn phase).status =
      (if ((phaseIssuesFor epic_number issues pn).filter fun i =>
          i.state = ("closed").data).length =
          (phaseIssuesFor epic_number issues pn).length then
        ("completed").data
       else ("in_progress").data) := by
  simp only [phaseStatusOne]
  rw [if_pos h]

theorem phaseStatusOne_status_zero (epic_number : Nat) (body : Str)
    (issues : List GHIssue) (pn : Nat) (phase : PhaseConfig)
    (h : (phaseIssuesFor epic_number issues pn).length = 0) :
    (phaseStatusOne epic_number body issues pn phase).status =
      (bodyStatusFor body pn).getD (("not_started").data) := by
  simp only [phaseStatusOne]
  rw [if_neg (by omega)]

theorem phaseStatusOne_body_independent (epic_number : Nat)
    (body1 body2 : Str) (issues : List GHIssue) (pn : Nat)
    (phase : PhaseConfig)
    (h : 0 < (phaseIssuesFor epic_number issues pn).length) :
    phaseStatusOne epic_number body1 issues pn phase =
      phaseStatusOne epic_number body2 issues pn phase := by
  simp only [phaseStatusOne]
  rw [if_pos h, if_pos h]

/-- C1. Phase status precedence: for every phase of
`get_epic_phase_status`, when the phase has at least one sub-issue the
derived status is computed from the sub-issues' open/closed counts
(`completed`/`in_progress`) and is identical for any Epic body — the
structured result overrides the body's `**Status**:` text; the textual
status parsed from the Epic body is consulted exactly when the phase has
zero sub-issues. -/
theorem phase_status_precedence (epic_number : Nat)
    (body1 body2 : Option Str) (issues : List GHIssue)
    (phases : List PhaseConfig) (i : Nat) (ps1 ps2 : PhaseStatus)
    (h1 : (get_epic_phase_status epic_number body1 issues phases).get? i =
      some ps1)
    (h2 : (get_epic_phase_status epic_number body2 issues phases).get? i =
      some ps2) :
    (0 < ps1.total_issues →
      ps1.status =
        (if ps1.completed_issues = ps1.total_issues then ("completed").data
         else ("in_progress").data) ∧ ps1 = ps2) ∧
    (ps1.total_issues = 0 →
      ps1.status = (bodyStatusFor (body1.getD []) (i + 1)).getD
        (("not_started").data)) := by
  rw [get_epic_phase_status, phaseStatusesGo_get?] at h1 h2
  cases hp : phases.get? i with
  | none =>
    rw [hp] at h1
    simp at h1
  | some phase =>
    rw [hp] at h1 h2
    simp only [Option.map_some', Option.some.injEq] at h1 h2
    have hidx : 0 + i + 1 = i + 1 := by omega
    rw [hidx] at h1 h2
    subst h1
    subst h2
    constructor
    · intro htot
      rw [phaseStatusOne_total] at htot
      refine ⟨?_, phaseStatusOne_body_independent epic_number _ _ issues
        (i + 1) phase htot⟩
      rw [phaseStatusOne_status_pos epic_number _ issues (i + 1) phase htot,
        phaseStatusOne_completed, phaseStatusOne_total]
    · intro htot
      rw [phaseStatusOne_total] at htot
      exact phaseStatusOne_status_zero epic_number _ issues (i + 1) phase
        htot

/-- Witness for C1: with one closed sub-issue, the derived status is
`completed` both under a body that says `Not Started` and under no body at
all. -/
theorem phase_status_precedence_witness :
    (0 < samplePhaseStatus.total_issues →
      samplePhaseStatus.status =
        (if samplePhaseStatus.completed_issues =
            samplePhaseStatus.total_issues then ("completed").data
         else ("in_progress").data) ∧
      samplePhaseStatus = samplePhaseStatus) ∧
    (samplePhaseStatus.total_issues = 0 →
      samplePhaseStatus.status =
        (bodyStatusFor ((some epicBodyNotStarted).getD []) (0 + 1)).getD
          (("not_started").data)) :=
  phase_status_precedence 1 (some epicBodyNotStarted) none [sampleSubIssue]
    [samplePhase] 0 samplePhaseStatus samplePhaseStatus (by decide)
    (by decide)

/-! ## C2: idempotence of `start_orchestration` -/

theorem infix_char_mem (pat l : Str) (c : Char) (hc : c ∈ pat)
    (h : pat <:+: l) : c ∈ l :=
  h.sublist.subset hc

/-- An occurrence of a pattern not containing `c` in `X ++ c :: Y` lies
wholly inside `X` or wholly inside `Y`. -/
theorem infix_append_cons_split (pat X Y : Str) (c : Char) (hc : c ∉ pat)
    (h : pat <:+: X ++ c :: Y) : pat <:+: X ∨ pat <:+: Y := by
  obtain ⟨u, v, huv⟩ := h
  have huv' : u ++ (pat ++ v) = X ++ c :: Y := by
    rw [← List.append_assoc]
    exact huv
  by_cases hlen : u.length + pat.length ≤ X.length
  · left
    set n := X.length - u.length - pat.length with hn
    have htake : (u ++ (pat ++ v)).take X.length =
        u ++ (pat ++ v.take n) := by
      rw [List.take_append_eq_append_take,
        List.take_of_length_le (by omega),
        List.take_append_eq_append_take,
        List.take_of_length_le (by omega)]
    have hX : (X ++ c :: Y).take X.length = X := List.take_left X (c :: Y)
    have h2 : X = u ++ (pat ++ v.take n) := by
      rw [← htake, huv', hX]
    exact ⟨u, v.take n, by rw [h2, List.append_assoc]⟩
  · by_cases hstart : X.length + 1 ≤ u.length
    · right
      have hdropL : (u ++ (pat ++ v)).drop (X.length + 1) =
          u.drop (X.length + 1) ++ (pat ++ v) := by
        rw [List.drop_append_eq_append_drop]
        have h0 : X.length + 1 - u.length = 0 := by omega
        rw [h0, List.drop_zero]
      have hdropR : (X ++ c :: Y).drop (X.length + 1) = Y := by
        rw [List.drop_append_eq_append_drop,
          List.drop_of_length_le (by omega)]
        have h1 : X.length + 1 - X.length = 1 := by omega
        rw [h1]
        rfl
      have hY : Y = u.drop (X.length + 1) ++ (pat ++ v) := by
        rw [← hdropL, huv', hdropR]
      exact ⟨u.drop (X.length + 1), v, by rw [hY, List.append_assoc]⟩
    · exfalso
      have hget : (X ++ c :: Y).get? X.length = some c := by
        rw [List.get?_append_right (le_refl _)]
        simp
      rw [← huv'] at hget
      have hu : u.length ≤ X.length := by omega
      rw [List.get?_append_right hu] at hget
      have hpd : X.length - u.length < pat.length := by omega
      rw [List.get?_append hpd] at hget
      exact hc (List.get?_mem hget)

theorem upper_p_mem_patPhaseMarker : 'P' ∈ patPhaseMarker := by decide

theorem newline_not_mem_patPhaseMarker : '\n' ∉ patPhaseMarker := by decide

theorem patPhaseMarker_eq : patPhaseMarker = ('*') :: (("*Phase**:").data) := by
  decide

/-- No occurrence of `**Phase**:` inside the pre-phase body segment when
the title is clean of it. -/
theorem noPat_bodyPre (epic_number : Nat) (title : Str)
    (hclean : ¬ patPhaseMarker <:+: title) :
    ¬ patPhaseMarker <:+: bodyPre epic_number title := by
  intro h
  have hsh : bodyPre epic_number title =
      (("# ").data ++ title) ++ ('\n') ::
        (('\n') :: (("**").data ++ epicRefMarker epic_number)) := by
    rw [bodyPre]
  rw [hsh] at h
  rcases infix_append_cons_split _ _ _ _ newline_not_mem_patPhaseMarker h
    with h | h
  · rcases List.infix_cons_iff.mp h with h | h
    · rw [patPhaseMarker_eq] at h
      rcases List.cons_prefix_cons.mp h with ⟨h, _⟩
      exact absurd h (by decide)
    · rcases List.infix_cons_iff.mp h with h | h
      · rw [patPhaseMarker_eq] at h
        rcases List.cons_prefix_cons.mp h with ⟨h, _⟩
        exact absurd h (by decide)
      · exact hclean h
  · have hp := infix_char_mem _ _ _ upper_p_mem_patPhaseMarker h
    simp only [epicRefMarker, List.mem_cons, List.mem_append] at hp
    rcases hp with hp | hp
    · exact absurd hp (by decide)
    · rcases hp with hp | hp | hp
      · exact absurd hp (by decide)
      · exact absurd hp (by decide)
      · exact natStr_no_upper_p epic_number hp

theorem find?_append_of_falses {α : Type} (p : α → Bool) (M N : List α)
    (hM : ∀ l ∈ M, p l = false) : (M ++ N).find? p = N.find? p := by
  induction M with
  | nil => simp
  | cons x xs ih =>
    rw [List.cons_append, List.find?_cons_of_neg _
      (by simp [hM x (List.mem_cons_self _ _)])]
    exact ih fun l hl => hM l (List.mem_cons_of_mem _ hl)

theorem getLast?_append_some (xs ys : Str) (c : Char)
    (h : ys.getLast? = some c) : (xs ++ ys).getLast? = some c := by
  have hne : ys ≠ [] := by
    intro he
    rw [he] at h
    simp at h
  rw [List.getLast?_append_of_ne_nil xs hne]
  exact h

theorem mem_of_getLast?_eq (l : Str) (c : Char) (h : l.getLast? = some c) :
    c ∈ l := by
  have hm : c ∈ l.getLast? := by
    rw [Option.mem_def]
    exact h
  obtain ⟨hne, heq⟩ := List.mem_getLast?_eq_getLast hm
  rw [heq]
  exact List.getLast_mem hne

theorem newline_not_mem_bodyPhaseLine (p : Nat) :
    '\n' ∉ bodyPhaseLine p := by
  intro h
  simp only [bodyPhaseLine, List.mem_append, List.mem_cons] at h
  rcases h with h | h | h
  · exact newline_not_mem_patPhaseMarker h
  · exact absurd h (by decide)
  · exact natStr_no_newline p h

theorem stripCR_bodyPhaseLine (p : Nat) :
    stripCR (bodyPhaseLine p) = bodyPhaseLine p := by
  rw [stripCR]
  have hlast : (bodyPhaseLine p).getLast? ≠ some '\r' := by
    intro h
    have hmem : '\r' ∈ bodyPhaseLine p := mem_of_getLast?_eq _ _ h
    simp only [bodyPhaseLine, List.mem_append, List.mem_cons] at hmem
    rcases hmem with h' | h' | h'
    · exact absurd h' (by decide)
    · exact absurd h' (by decide)
    · exact absurd (natStr_all_digits p '\r' h')
        (by decide)
  rw [if_neg hlast]

theorem pat_prefix_bodyPhaseLine (p : Nat) :
    patPhaseMarker <:+: bodyPhaseLine p :=
  ⟨[], (' ') :: natStr p, rfl⟩

theorem noPat_space_digits (p : Nat) :
    ¬ patPhaseMarker <:+: (' ') :: natStr p := by
  intro h
  have hp := infix_char_mem _ _ _ upper_p_mem_patPhaseMarker h
  simp only [List.mem_cons] at hp
  rcases hp with hp | hp
  · exact absurd hp (by decide)
  · exact natStr_no_upper_p p hp

theorem trimRust_space_digits (p : Nat) :
    trimRust ((' ') :: natStr p) = natStr p := by
  rw [trimRust]
  have h1 : ((' ') :: natStr p).dropWhile isRustWhitespace =
      (natStr p).dropWhile isRustWhitespace := by
    rw [List.dropWhile_cons_of_pos (by decide)]
  have h2 : (natStr p).dropWhile isRustWhitespace = natStr p := by
    cases hd : natStr p with
    | nil => rfl
    | cons c rest =>
      rw [List.dropWhile_cons_of_neg]
      rw [natStr_not_whitespace p c (by rw [hd]; exact List.mem_cons_self _ _)]
      simp
  rw [h1, h2]
  have h3 : (natStr p).reverse.dropWhile isRustWhitespace =
      (natStr p).reverse := by
    cases hd : (natStr p).reverse with
    | nil => rfl
    | cons c rest =>
      rw [List.dropWhile_cons_of_neg]
      have hcm : c ∈ natStr p := by
        rw [← List.mem_reverse, hd]
        exact List.mem_cons_self _ _
      rw [natStr_not_whitespace p c hcm]
      simp
  rw [h3, List.reverse_reverse]

/-- The `Epic**: #{n}` marker occurs in every generated sub-issue body. -/
theorem epicRef_infix_format (en : Nat) (er wr : Str)
    (cfg : SubIssueConfig) :
    epicRefMarker en <:+: format_sub_issue_body en er wr cfg := by
  have h1 : epicRefMarker en <:+: bodyPre en cfg.title := by
    refine ⟨("# ").data ++ cfg.title ++ ['\n', '\n'] ++ ("**").data, [], ?_⟩
    rw [bodyPre]
    simp
  have h2 : bodyPre en cfg.title <+: format_sub_issue_body en er wr cfg :=
    ⟨('\n') :: (bodyPhaseLine cfg.phase ++ ('\n') ::
      bodyPost er wr cfg), rfl⟩
  exact h1.trans (List.IsPrefix.isInfix h2)

/-- The phase-number extraction succeeds on every generated sub-issue body
whose title does not itself contain the `**Phase**:` marker. -/
theorem extractPhase_format (en : Nat) (er wr : Str) (cfg : SubIssueConfig)
    (hclean : ¬ patPhaseMarker <:+: cfg.title)
    (h32 : cfg.phase < 2 ^ 32) :
    extractPhaseFromBody (format_sub_issue_body en er wr cfg) =
      some cfg.phase := by
  have hbody : format_sub_issue_body en er wr cfg =
      bodyPre en cfg.title ++ ('\n') :: (bodyPhaseLine cfg.phase ++
        ('\n') :: bodyPost er wr cfg) := rfl
  have hpostlast : (bodyPost er wr cfg).getLast? = some '\n' := by
    simp only [bodyPost]
    exact List.getLast?_concat _
  have hcons : ∀ (x : Char) (l : Str) (c : Char), l.getLast? = some c →
      (x :: l).getLast? = some c := fun x l c h =>
    getLast?_append_some [x] l c h
  have hlast : (format_sub_issue_body en er wr cfg).getLast? = some '\n' := by
    rw [hbody]
    apply getLast?_append_some
    apply hcons
    apply getLast?_append_some
    apply hcons
    exact hpostlast
  have hne : format_sub_issue_body en er wr cfg ≠ [] := by
    intro he
    rw [he] at hlast
    simp at hlast
  have hSR : splitChar '\n' (bodyPost er wr cfg) ≠ [] :=
    splitChar_ne_nil _ _
  have hres : splitChar '\n' (format_sub_issue_body en er wr cfg) =
      (splitChar '\n' (bodyPre en cfg.title) ++ [bodyPhaseLine cfg.phase])
        ++ splitChar '\n' (bodyPost er wr cfg) := by
    rw [hbody, splitChar_append_sep, splitChar_append_sep,
      splitChar_eq_self '\n' _ (newline_not_mem_bodyPhaseLine _)]
    simp
  have hlines : rustLines (format_sub_issue_body en er wr cfg) =
      (splitChar '\n' (bodyPre en cfg.title)).map stripCR ++
        bodyPhaseLine cfg.phase ::
          ((splitChar '\n' (bodyPost er wr cfg)).dropLast.map stripCR) := by
    rw [rustLines, if_neg hne]
    simp only [hlast, if_pos rfl, hres]
    rw [List.dropLast_append_of_ne_nil _ hSR]
    simp [stripCR_bodyPhaseLine]
  have hfails : ∀ l ∈ (splitChar '\n' (bodyPre en cfg.title)).map stripCR,
      (decide (patPhaseMarker <:+: l)) = false := by
    intro l hl
    obtain ⟨la, hla, rfl⟩ := List.mem_map.mp hl
    simp only [decide_eq_false_iff_not]
    intro hpat
    exact noPat_bodyPre en cfg.title hclean
      (hpat.trans ((stripCR_infix_self la).trans
        (splitChar_mem_infix_input '\n' _ la hla)))
  have hplpos : (decide (patPhaseMarker <:+: bodyPhaseLine cfg.phase)) =
      true := by
    simpa using pat_prefix_bodyPhaseLine cfg.phase
  have hsplit2 : splitSub patPhaseMarker (bodyPhaseLine cfg.phase) =
      [[], (' ') :: natStr cfg.phase] := by
    rw [bodyPhaseLine, patPhaseMarker_eq]
    refine splitSub_pattern_head _ _ _ ?_
    rw [← patPhaseMarker_eq]
    exact noPat_space_digits cfg.phase
  rw [extractPhaseFromBody, hlines,
    find?_append_of_falses _ _ _ hfails]
  have hfind : List.find? (fun line => decide (patPhaseMarker <:+: line))
      (bodyPhaseLine cfg.phase ::
        ((splitChar '\n' (bodyPost er wr cfg)).dropLast.map stripCR)) =
      some (bodyPhaseLine cfg.phase) := List.find?_cons_of_pos _ hplpos
  rw [hfind]
  simp only [Option.some_bind, hsplit2]
  simp only [List.get?_cons_succ, List.get?_cons_zero, Option.some_bind]
  rw [trimRust_space_digits, parseU32_natStr _ h32]

theorem phaseEntries_append (xs ys : List GHIssue) (epic_number : Nat) :
    phaseEntries (xs ++ ys) epic_number =
      phaseEntries xs epic_number ++ phaseEntries ys epic_number := by
  simp [phaseEntries, List.filter_append, List.filterMap_append]

theorem lookupPhaseIssue_isSome_of_entry (issues : List GHIssue)
    (epic_number p : Nat) (e : Nat × GHIssue)
    (hmem : e ∈ phaseEntries issues epic_number) (hp : e.1 = p) :
    (lookupPhaseIssue issues epic_number p).isSome := by
  rw [lookupPhaseIssue, Option.isSome_map']
  rw [List.find?_isSome]
  exact ⟨e, List.mem_reverse.mpr hmem, by simp [hp]⟩

theorem lookupPhaseIssue_entry_of_isSome (issues : List GHIssue)
    (epic_number p : Nat)
    (h : (lookupPhaseIssue issues epic_number p).isSome) :
    ∃ iss, lookupPhaseIssue issues epic_number p = some iss ∧
      (p, iss) ∈ phaseEntries issues epic_number ∧ iss ∈ issues := by
  rw [lookupPhaseIssue] at h ⊢
  rw [Option.isSome_map'] at h
  obtain ⟨e, hfind⟩ := Option.isSome_iff_exists.mp h
  have hmem : e ∈ (phaseEntries issues epic_number).reverse :=
    List.mem_of_find?_eq_some hfind
  have hpe : e.1 = p := by
    have := List.find?_some hfind
    simpa using this
  have hmem' : e ∈ phaseEntries issues epic_number :=
    List.mem_reverse.mp hmem
  have hiss : e.2 ∈ issues := by
    obtain ⟨a, ha, hfa⟩ := List.mem_filterMap.mp hmem'
    have : a = e.2 := by
      cases hb : a.body.bind extractPhaseFromBody with
      | none => rw [hb] at hfa; simp at hfa
      | some q =>
        rw [hb] at hfa
        simp only [Option.map_some', Option.some.injEq] at hfa
        rw [← hfa]
      ;
    rw [← this]
    exact List.mem_of_mem_filter ha
  refine ⟨e.2, by rw [hfind]; rfl, ?_, hiss⟩
  have : (p, e.2) = e := by
    rw [← hpe]
  rw [this]
  exact hmem'

/-- The created issue of a clean-titled config is detected by the
existing-sub-issue scan: it yields a `(phase, issue)` entry. -/
theorem entry_of_created_issue (epic_number : Nat) (er wr : Str)
    (cfg : SubIssueConfig) (iss : GHIssue)
    (hbody : iss.body = some (format_sub_issue_body epic_number er wr cfg))
    (hclean : ¬ patPhaseMarker <:+: cfg.title)
    (h32 : cfg.phase < 2 ^ 32) (issues : List GHIssue)
    (hmem : iss ∈ issues) :
    (cfg.phase, iss) ∈ phaseEntries issues epic_number := by
  rw [phaseEntries]
  refine List.mem_filterMap.mpr ⟨iss, List.mem_filter.mpr ⟨hmem, ?_⟩, ?_⟩
  · rw [refsEpic, hbody]
    simpa using epicRef_infix_format epic_number er wr cfg
  · rw [hbody]
    simp only [Option.some_bind]
    rw [extractPhase_format epic_number er wr cfg hclean h32]
    rfl

/-- `create_sub_issues` only appends issues, and appends a suitably-bodied
issue for every config. -/
theorem create_sub_issues_issues (epic_number : Nat)
    (er ewr : Str) (configs : List SubIssueConfig) :
    ∀ (a : List SubIssueInfo) (st : GHState),
      ∃ Δ, (configs.foldl (csiStep epic_number er ewr) (a, st)).2.issues =
          st.issues ++ Δ ∧
        ∀ cfg ∈ configs, ∃ iss ∈ Δ,
          iss.body = some (format_sub_issue_body epic_number er
            (cfg.work_repo.getD ewr) cfg) := by
  induction configs with
  | nil =>
    intro a st
    exact ⟨[], by simp, by simp⟩
  | cons c cs ih =>
    intro a st
    rw [List.foldl_cons]
    have hstep : csiStep epic_number er ewr (a, st) c =
        (a ++ [{ issue_number := st.nextNumber
               , title := c.title
               , phase := c.phase
               , agent_type := c.agent_type
               , work_repo := c.work_repo.getD ewr
               , url := issueUrl er st.nextNumber }],
         (createIssue st er c.title (format_sub_issue_body epic_number er
           (c.work_repo.getD ewr) c)).2) := rfl
    rw [hstep]
    obtain ⟨Δ, hΔ, hall⟩ := ih _ ((createIssue st er c.title
      (format_sub_issue_body epic_number er (c.work_repo.getD ewr) c)).2)
    refine ⟨{ number := st.nextNumber
            , title := c.title
            , body := some (format_sub_issue_body epic_number er
                (c.work_repo.getD ewr) c)
            , state := ("open").data
            , url := issueUrl er st.nextNumber
            , labels := [("todo").data] } :: Δ, ?_, ?_⟩
    · rw [hΔ]
      simp [createIssue]
    · intro cfg hcfg
      rcases List.mem_cons.mp hcfg with rfl | hcfg
      · exact ⟨_, List.mem_cons_self _ _, rfl⟩
      · obtain ⟨iss, hiss, hb⟩ := hall cfg hcfg
        exact ⟨iss, List.mem_cons_of_mem _ hiss, hb⟩

/-- Each `processPhase` step only appends to every accumulator field. -/
theorem processPhase_fields_mono (epic : EpicInfo) (d : Str)
    (issues : List GHIssue) (acc : OrchAcc) (p : Nat) :
    ∃ dw ds di dc,
      (processPhase epic d issues acc p).warnings = acc.warnings ++ dw ∧
      (processPhase epic d issues acc p).started = acc.started ++ ds ∧
      (processPhase epic d issues acc p).infos = acc.infos ++ di ∧
      (processPhase epic d issues acc p).configs = acc.configs ++ dc := by
  rw [processPhase]
  by_cases h : p - 1 < epic.phases.length
  · rw [dif_pos h]
    cases hlk : lookupPhaseIssue issues epic.epic_number p with
    | some existing =>
      exact ⟨_, _, _, [], rfl, rfl, rfl, by simp⟩
    | none =>
      exact ⟨_, [p], [], _, rfl, rfl, by simp, rfl⟩
  · rw [dif_neg h]
    exact ⟨_, [], [], [], rfl, by simp, by simp, by simp⟩

theorem foldl_processPhase_mono (epic : EpicInfo) (d : Str)
    (issues : List GHIssue) (S : List Nat) :
    ∀ acc : OrchAcc,
      ∃ dw di dc,
        (S.foldl (processPhase epic d issues) acc).warnings =
          acc.warnings ++ dw ∧
        (S.foldl (processPhase epic d issues) acc).infos =
          acc.infos ++ di ∧
        (S.foldl (processPhase epic d issues) acc).configs =
          acc.configs ++ dc := by
  induction S with
  | nil => exact fun acc => ⟨[], [], [], by simp, by simp, by simp⟩
  | cons q rest ih =>
    intro acc
    rw [List.foldl_cons]
    obtain ⟨dw, di, dc, hw, hi, hc⟩ := ih (processPhase epic d issues acc q)
    obtain ⟨ew, es, ei, ec, gw, _, gi, gc⟩ :=
      processPhase_fields_mono epic d issues acc q
    exact ⟨ew ++ dw, ei ++ di, ec ++ dc,
      by rw [hw, gw, List.append_assoc],
      by rw [hi, gi, List.append_assoc],
      by rw [hc, gc, List.append_assoc]⟩

/-- A requested, valid phase with no existing sub-issue contributes its
config to the loop accumulator. -/
theorem foldl_processPhase_config_added (epic : EpicInfo) (d : Str)
    (issues : List GHIssue) (S : List Nat) (p : Nat) :
    ∀ acc : OrchAcc, p ∈ S →
      ∀ h : p - 1 < epic.phases.length,
      lookupPhaseIssue issues epic.epic_number p = none →
      create_phase_issue p (epic.phases.get ⟨p - 1, h⟩) epic.work_repo d ∈
        (S.foldl (processPhase epic d issues) acc).configs := by
  induction S with
  | nil => intro _ hmem; simp at hmem
  | cons q rest ih =>
    intro acc hmem h hlk
    rw [List.foldl_cons]
    rcases List.mem_cons.mp hmem with rfl | hmem
    · have hstep : create_phase_issue p (epic.phases.get ⟨p - 1, h⟩)
          epic.work_repo d ∈ (processPhase epic d issues acc p).configs := by
        rw [processPhase, dif_pos h, hlk]
        simp
      obtain ⟨_, _, dc, _, _, hc⟩ :=
        foldl_processPhase_mono epic d issues rest
          (processPhase epic d issues acc p)
      rw [hc]
      exact List.mem_append_left _ hstep
    · exact ih _ hmem h hlk

/-- When every requested phase is invalid or already has a sub-issue, the
loop creates no configs. -/
theorem foldl_processPhase_configs_nil (epic : EpicInfo) (d : Str)
    (issues : List GHIssue) (S : List Nat)
    (hall : ∀ p ∈ S, ¬ (p - 1 < epic.phases.length) ∨
      (lookupPhaseIssue issues epic.epic_number p).isSome) :
    ∀ acc : OrchAcc,
      (S.foldl (processPhase epic d issues) acc).configs = acc.configs := by
  induction S with
  | nil => exact fun acc => rfl
  | cons q rest ih =>
    intro acc
    rw [List.foldl_cons]
    have hstep : (processPhase epic d issues acc q).configs = acc.configs := by
      rcases hall q (List.mem_cons_self _ _) with hq | hq
      · rw [processPhase, dif_neg hq]
      · obtain ⟨e, he⟩ := Option.isSome_iff_exists.mp hq
        rw [processPhase]
        by_cases hv : q - 1 < epic.phases.length
        · rw [dif_pos hv, he]
        · rw [dif_neg hv]
    rw [ih (fun p hp => hall p (List.mem_cons_of_mem _ hp)) _, hstep]

/-- A requested, valid phase with an existing sub-issue records the skip
warning and the reused-issue info. -/
theorem foldl_processPhase_warn_info (epic : EpicInfo) (d : Str)
    (issues : List GHIssue) (S : List Nat) (p : Nat) (ex : GHIssue) :
    ∀ acc : OrchAcc, p ∈ S →
      p - 1 < epic.phases.length →
      lookupPhaseIssue issues epic.epic_number p = some ex →
      warnExists p ex.number ∈
        (S.foldl (processPhase epic d issues) acc).warnings ∧
      ({ issue_number := ex.number, title := ex.title, phase := p
       , agent_type := d, work_repo := epic.work_repo
       , url := ex.url } : SubIssueInfo) ∈
        (S.foldl (processPhase epic d issues) acc).infos := by
  induction S with
  | nil => intro _ hmem; simp at hmem
  | cons q rest ih =>
    intro acc hmem h hlk
    rw [List.foldl_cons]
    rcases List.mem_cons.mp hmem with rfl | hmem
    · have hw : warnExists p ex.number ∈
          (processPhase epic d issues acc p).warnings := by
        rw [processPhase, dif_pos h, hlk]
        simp
      have hi : ({ issue_number := ex.number, title := ex.title, phase := p,
                   agent_type := d, work_repo := epic.work_repo,
                   url := ex.url } : SubIssueInfo) ∈
          (processPhase epic d issues acc p).infos := by
        rw [processPhase, dif_pos h, hlk]
        simp
      obtain ⟨dw, di, dc, hwm, him, _⟩ :=
        foldl_processPhase_mono epic d issues rest
          (processPhase epic d issues acc p)
      exact ⟨by rw [hwm]; exact List.mem_append_left _ hw,
        by rw [him]; exact List.mem_append_left _ hi⟩
    · exact ih _ hmem h hlk

theorem start_orchestration_snd (epic : EpicInfo)
    (config : StartOrchestrationConfig) (st : GHState) :
    (start_orchestration epic config st).2 =
      if (orchAccOf epic config st).configs = [] then st
      else (create_sub_issues epic.epic_number epic.repo epic.work_repo
        (orchAccOf epic config st).configs st).2 := by
  rw [start_orchestration]
  by_cases h : (orchAccOf epic config st).configs = [] <;> simp [h]

theorem start_orchestration_warnings_eq (epic : EpicInfo)
    (config : StartOrchestrationConfig) (st : GHState) :
    (start_orchestration epic config st).1.warnings =
      (orchAccOf epic config st).warnings := rfl

theorem start_orchestration_sub_issues_of_nil (epic : EpicInfo)
    (config : StartOrchestrationConfig) (st : GHState)
    (h : (orchAccOf epic config st).configs = []) :
    (start_orchestration epic config st).1.sub_issues =
      (orchAccOf epic config st).infos := by
  rw [start_orchestration]
  simp [h]

/-- C2, amended. `start_orchestration` is idempotent on sub-issue creation
provided the epic's phase count fits in `u32` (it is one in the source)
and no generated sub-issue title itself contains the literal `**Phase**:`
marker: the claim is not unconditional, since the dedup scan parses the
phase number from the first body line containing the marker, and a
marker-carrying title heading shadows the real `**Phase**:` line (see the
counterexample). Under the proviso, running a second time with the same
epic and phase set leaves the GitHub issue store untouched, and for every
requested valid phase the second run finds the existing marker-carrying
sub-issue, records the skip warning, and reuses the issue in its
result. -/
theorem start_orchestration_idempotent (epic : EpicInfo)
    (config : StartOrchestrationConfig) (st0 : GHState)
    (hlen : epic.phases.length < 2 ^ 32)
    (hclean : ∀ p ∈ phasesToStart config, ∀ phase ∈ epic.phases,
      ¬ patPhaseMarker <:+:
        (create_phase_issue p phase epic.work_repo
          config.default_agent_type).title) :
    (start_orchestration epic config
        (start_orchestration epic config st0).2).2 =
      (start_orchestration epic config st0).2 ∧
    ∀ p ∈ phasesToStart config, p - 1 < epic.phases.length →
      ∃ iss ∈ (start_orchestration epic config st0).2.issues,
        warnExists p iss.number ∈
          (start_orchestration epic config
            (start_orchestration epic config st0).2).1.warnings ∧
        ∃ info ∈ (start_orchestration epic config
            (start_orchestration epic config st0).2).1.sub_issues,
          info.issue_number = iss.number ∧ info.phase = p := by
  obtain ⟨Δ, hΔiss, hΔall⟩ :
      ∃ Δ, (start_orchestration epic config st0).2.issues =
          st0.issues ++ Δ ∧
        ∀ p ∈ phasesToStart config, ∀ h : p - 1 < epic.phases.length,
          lookupPhaseIssue st0.issues epic.epic_number p = none →
          ∃ iss ∈ Δ, iss.body = some (format_sub_issue_body
            epic.epic_number epic.repo epic.work_repo
            (create_phase_issue p (epic.phases.get ⟨p - 1, h⟩)
              epic.work_repo config.default_agent_type)) := by
    by_cases hcfg : (orchAccOf epic config st0).configs = []
    · refine ⟨[], by rw [start_orchestration_snd, if_pos hcfg]; simp, ?_⟩
      intro p hp h hlk
      have hadded := foldl_processPhase_config_added epic
        config.default_agent_type st0.issues (phasesToStart config) p
        { warnings := [], started := [], infos := [], configs := [] }
        hp h hlk
      rw [show (phasesToStart config).foldl
        (processPhase epic config.default_agent_type st0.issues)
        { warnings := [], started := [], infos := [], configs := [] } =
          orchAccOf epic config st0 from rfl, hcfg] at hadded
      simp at hadded
    · obtain ⟨Δ, hiss, hall⟩ := create_sub_issues_issues epic.epic_number
        epic.repo epic.work_repo (orchAccOf epic config st0).configs []
        st0
      refine ⟨Δ, ?_, ?_⟩
      · rw [start_orchestration_snd, if_neg hcfg]
        exact hiss
      · intro p hp h hlk
        have hadded := foldl_processPhase_config_added epic
          config.default_agent_type st0.issues (phasesToStart config) p
          { warnings := [], started := [], infos := [], configs := [] }
          hp h hlk
        obtain ⟨iss, hmem, hbody⟩ := hall _ hadded
        exact ⟨iss, hmem, hbody⟩
  have hkey : ∀ p ∈ phasesToStart config, p - 1 < epic.phases.length →
      ∃ iss, lookupPhaseIssue
          (start_orchestration epic config st0).2.issues
          epic.epic_number p = some iss ∧
        iss ∈ (start_orchestration epic config st0).2.issues := by
    intro p hp h
    have hsome : (lookupPhaseIssue
        (start_orchestration epic config st0).2.issues
        epic.epic_number p).isSome := by
      cases hlk : lookupPhaseIssue st0.issues epic.epic_number p with
      | some e =>
        obtain ⟨iss0, _, hentry0, _⟩ := lookupPhaseIssue_entry_of_isSome
          st0.issues epic.epic_number p (by rw [hlk]; rfl)
        refine lookupPhaseIssue_isSome_of_entry _ _ _ (p, iss0) ?_ rfl
        rw [hΔiss, phaseEntries_append]
        exact List.mem_append_left _ hentry0
      | none =>
        obtain ⟨iss, hmem, hbody⟩ := hΔall p hp h hlk
        have hwr : ((create_phase_issue p (epic.phases.get ⟨p - 1, h⟩)
            epic.work_repo config.default_agent_type).work_repo).getD
            epic.work_repo = epic.work_repo := rfl
        have hentry := entry_of_created_issue epic.epic_number epic.repo
          epic.work_repo
          (create_phase_issue p (epic.phases.get ⟨p - 1, h⟩)
            epic.work_repo config.default_agent_type) iss hbody
          (hclean p hp _ (List.get_mem _ _ _))
          (by
            have : (create_phase_issue p (epic.phases.get ⟨p - 1, h⟩)
                epic.work_repo config.default_agent_type).phase = p := rfl
            rw [this]
            omega)
          ((start_orchestration epic config st0).2.issues)
          (by rw [hΔiss]; exact List.mem_append_right _ hmem)
        refine lookupPhaseIssue_isSome_of_entry _ _ _ _ hentry rfl
    obtain ⟨iss, hlk1, _, hmem1⟩ := lookupPhaseIssue_entry_of_isSome _ _ _
      hsome
    exact ⟨iss, hlk1, hmem1⟩
  have hnil2 : (orchAccOf epic config
      (start_orchestration epic config st0).2).configs = [] := by
    rw [orchAccOf]
    rw [foldl_processPhase_configs_nil epic config.default_agent_type _
      (phasesToStart config) ?_ _]
    intro p hp
    by_cases h : p - 1 < epic.phases.length
    · right
      obtain ⟨iss, hlk, _⟩ := hkey p hp h
      rw [hlk]
      rfl
    · exact Or.inl h
  refine ⟨?_, ?_⟩
  · rw [start_orchestration_snd epic config
      (start_orchestration epic config st0).2, if_pos hnil2]
  · intro p hp h
    obtain ⟨iss, hlk, hmem⟩ := hkey p hp h
    refine ⟨iss, hmem, ?_, ?_⟩
    · rw [start_orchestration_warnings_eq]
      exact (foldl_processPhase_warn_info epic config.default_agent_type
        _ (phasesToStart config) p iss _ hp h hlk).1
    · rw [start_orchestration_sub_issues_of_nil epic config _ hnil2]
      refine ⟨{ issue_number := iss.number, title := iss.title, phase := p,
                agent_type := config.default_agent_type,
                work_repo := epic.work_repo, url := iss.url }, ?_, rfl, rfl⟩
      exact (foldl_processPhase_warn_info epic config.default_agent_type
        _ (phasesToStart config) p iss _ hp h hlk).2

/-- Witness for C2 at the sample epic. -/
theorem start_orchestration_idempotent_witness :
    (start_orchestration sampleEpic sampleOrchConfig
        (start_orchestration sampleEpic sampleOrchConfig emptyGH).2).2 =
      (start_orchestration sampleEpic sampleOrchConfig emptyGH).2 ∧
    ∀ p ∈ phasesToStart sampleOrchConfig,
      p - 1 < sampleEpic.phases.length →
      ∃ iss ∈ (start_orchestration sampleEpic sampleOrchConfig emptyGH).2.issues,
        warnExists p iss.number ∈
          (start_orchestration sampleEpic sampleOrchConfig
            (start_orchestration sampleEpic sampleOrchConfig
              emptyGH).2).1.warnings ∧
        ∃ info ∈ (start_orchestration sampleEpic sampleOrchConfig
            (start_orchestration sampleEpic sampleOrchConfig
              emptyGH).2).1.sub_issues,
          info.issue_number = iss.number ∧ info.phase = p :=
  start_orchestration_idempotent sampleEpic sampleOrchConfig emptyGH
    (by decide) (by decide)

set_option maxRecDepth 8000 in
/-- Counterexample to the unconditional reading of C2: for an epic whose
single phase is named `**Phase**: 9 x`, the first run creates one
sub-issue whose body carries both the epic reference and a well-formed
`**Phase**: 1` line, yet the second run creates a second, duplicate
sub-issue. The marker inside the generated title heading shadows the
body's phase line in the scan (the first matching line wins) and the
heading's tail fails the `u32` parse, so the existing issue goes
unrecognised. -/
theorem start_orchestration_not_unconditionally_idempotent :
    (start_orchestration trickyEpic sampleOrchConfig emptyGH).2.issues.length
        = 1 ∧
    (∀ iss ∈ (start_orchestration trickyEpic sampleOrchConfig
        emptyGH).2.issues,
      epicRefMarker 1 <:+: iss.body.getD [] ∧
        bodyPhaseLine 1 <:+: iss.body.getD []) ∧
    (start_orchestration trickyEpic sampleOrchConfig
        (start_orchestration trickyEpic sampleOrchConfig
          emptyGH).2).2.issues.length = 2 := by
  decide

end Handy

